import Mathlib

/-!
Verification development for the `attention` focus/time-tracking overlay.

The Python source is shallowly embedded: timestamps and durations are exact
rationals (seconds), Python `int(...)` truncation and `//` floor division are
made explicit, fallible paths (uncaught exceptions) are `Except Unit`, and
JSON data is the inductive `JVal` (a parsed JSON document: object fields are
key-unique, in document order).
-/

namespace Attention

/-- ASCII whitespace removed by Python `str.strip()`. -/
def isPySpace (c : Char) : Bool :=
  c == ' ' || c == '\t' || c == '\n' || c == '\r' || c == '\x0b' || c == '\x0c'

/-- Python `str.strip()` (ASCII whitespace). -/
def pyStrip (s : String) : String :=
  ⟨((s.toList.dropWhile isPySpace).reverse.dropWhile isPySpace).reverse⟩

/-- ASCII lowercasing of one character, enumerated. -/
def asciiLower (c : Char) : Char :=
  match c with
  | 'A' => 'a' | 'B' => 'b' | 'C' => 'c' | 'D' => 'd' | 'E' => 'e' | 'F' => 'f'
  | 'G' => 'g' | 'H' => 'h' | 'I' => 'i' | 'J' => 'j' | 'K' => 'k' | 'L' => 'l'
  | 'M' => 'm' | 'N' => 'n' | 'O' => 'o' | 'P' => 'p' | 'Q' => 'q' | 'R' => 'r'
  | 'S' => 's' | 'T' => 't' | 'U' => 'u' | 'V' => 'v' | 'W' => 'w' | 'X' => 'x'
  | 'Y' => 'y' | 'Z' => 'z' | c => c

/-- Python `str.lower()` (ASCII range). -/
def pyLower (s : String) : String :=
  ⟨s.toList.map asciiLower⟩

/-- Python `a or b` on strings: `b` when `a` is empty. -/
def pyOr (a b : String) : String :=
  if a = "" then b else a

/-- An ASCII decimal digit, by code point. -/
def isDigitChar (c : Char) : Bool :=
  decide (48 ≤ c.toNat ∧ c.toNat ≤ 57)

/-- Value of an ASCII decimal digit. -/
def digitVal (c : Char) : Option Nat :=
  if isDigitChar c then some (c.toNat - 48) else none

/-- Two-digit zero-padded rendering used by `strftime("%H:%M")`. -/
def pad2 (n : Nat) : String :=
  if n < 10 then "0" ++ toString n else toString n

/-- The minutes field of `strptime(value, "%H:%M")`: regex `([0-5]\d|\d)`
followed by end of input (strptime rejects unconsumed characters). -/
def parseMinutePart : List Char → Option Nat
  | [c] => digitVal c
  | [c1, c2] => do
      let d1 ← digitVal c1
      let d2 ← digitVal c2
      if d1 ≤ 5 then some (10 * d1 + d2) else none
  | _ => none

/-- `datetime.strptime(value, "%H:%M")`: regex
`(2[0-3]|[0-1]\d|\d):([0-5]\d|\d)` anchored at both ends, giving
`(hour, minute)`. -/
def parseHM : List Char → Option (Nat × Nat)
  | c1 :: ':' :: rest => do
      let h ← digitVal c1
      let m ← parseMinutePart rest
      some (h, m)
  | c1 :: c2 :: ':' :: rest => do
      let d1 ← digitVal c1
      let d2 ← digitVal c2
      if 10 * d1 + d2 ≤ 23 then
        let m ← parseMinutePart rest
        some (10 * d1 + d2, m)
      else none
  | _ => none

/-- `TaskApp._time_to_minutes`: parse `"%H:%M"` and return minutes since
midnight, `None` on parse failure. -/
def timeToMinutes (value : String) : Option Nat :=
  (parseHM value.toList).map (fun p => p.1 * 60 + p.2)

/-- `strftime("%H:%M")` given an hour and minute. -/
def hmFormat (h m : Nat) : String :=
  pad2 h ++ ":" ++ pad2 m

/-- `config._normalize_time` on a non-empty string: strip, parse `"%H:%M"`,
re-render zero-padded. -/
def normCore (value : String) : Option String :=
  match parseHM (pyStrip value).toList with
  | some (h, m) => some (hmFormat h m)
  | none => none

/-- One pass of Python `str.replace(pat, rep)` for a non-empty pattern:
non-overlapping replacements, left to right.  The fuel is the length of the
remaining text, which bounds the recursion depth. -/
def replaceFuel (pat rep : List Char) : Nat → List Char → List Char
  | 0, l => l
  | _ + 1, [] => []
  | fuel + 1, c :: rest =>
    if pat.isPrefixOf (c :: rest) ∧ 0 < pat.length then
      rep ++ replaceFuel pat rep fuel ((c :: rest).drop pat.length)
    else
      c :: replaceFuel pat rep fuel rest

/-- Python `str.format(**kwargs)` restricted to the plain `{name}` placeholders
used by the string tables: each keyword substitution in turn. -/
def pyFormat (template : String) (args : List (String × String)) : String :=
  args.foldl
    (fun acc p =>
      let pat := ("\x7b" ++ p.1 ++ "\x7d").toList
      ⟨replaceFuel pat p.2.toList acc.toList.length acc.toList⟩)
    template

/-- `i18n.LANG_STRINGS["en"]`. -/
def langStringsEn : List (String × String) :=
  [("app_title", "Task Reminder"),
   ("tray_show", "Show Task"),
   ("tray_hide", "Hide Window"),
   ("tray_edit", "Edit Task..."),
   ("tray_quit", "Quit"),
   ("tray_history", "View History"),
   ("settings_title", "Task Settings"),
   ("button_save", "Save"),
   ("button_cancel", "Cancel"),
   ("error_empty", "Task text cannot be empty."),
   ("error_save", "Failed to save configuration:\\n{error}"),
   ("error_invalid_color", "Invalid color format. Use #RRGGBB."),
   ("error_invalid_transparency", "Invalid transparency value. Use 0.2 - 1.0."),
   ("error_history_save", "Failed to write history:\\n{error}"),
   ("notice_title", "Notice"),
   ("label_text", "Task Text"),
   ("label_font", "Font Family"),
   ("label_font_size", "Font Size"),
   ("label_text_color", "Text Color (#RRGGBB)"),
   ("label_outline_color", "Outline Color (#RRGGBB)"),
   ("label_transparency", "Transparency (0.2 - 1.0)"),
   ("label_language", "Language"),
   ("language_option_en", "English"),
   ("language_option_zh", "Chinese"),
   ("menu_start", "Start Task"),
   ("menu_pause", "Pause Task"),
   ("menu_resume", "Resume Task"),
   ("menu_stop", "Stop Task"),
   ("menu_history", "Open Task History"),
   ("prompt_start_title", "Start Task"),
   ("prompt_start_message", "Enter task name:"),
   ("prompt_edit_title", "Edit Task"),
   ("prompt_edit_message", "Update task text:"),
   ("pause_prefix", "Paused"),
   ("no_task", "No task"),
   ("history_title", "Task History"),
   ("history_close", "Close"),
   ("history_empty", "No records for today."),
   ("history_column_time", "Time"),
   ("history_column_event", "Event"),
   ("history_column_title", "Task"),
   ("history_date_label", "Date"),
   ("history_event_start", "Started"),
   ("history_event_pause", "Paused"),
   ("history_event_resume", "Resumed"),
   ("history_event_stop", "Stopped"),
   ("time_started", "Start Time"),
   ("time_elapsed_less_minute", "Elapsed <1 minute"),
   ("time_elapsed_minutes", "Elapsed {minutes} minutes"),
   ("time_elapsed_hours", "Elapsed {hours}h {minutes}m"),
   ("time_elapsed_hours_only", "Elapsed {hours} hours")]

/-- `i18n.LANG_STRINGS["zh"]`. -/
def langStringsZh : List (String × String) :=
  [("app_title", "任务提醒"),
   ("tray_show", "显示任务"),
   ("tray_hide", "隐藏窗口"),
   ("tray_edit", "编辑任务..."),
   ("tray_quit", "退出"),
   ("tray_history", "查看历史"),
   ("settings_title", "任务设置"),
   ("button_save", "保存"),
   ("button_cancel", "取消"),
   ("error_empty", "任务内容不能为空。"),
   ("error_save", "保存配置失败：\n{error}"),
   ("error_invalid_color", "颜色格式不正确，请使用 #RRGGBB。"),
   ("error_invalid_transparency", "透明度数值不正确，范围 0.2 - 1.0。"),
   ("error_history_save", "写入历史失败：\n{error}"),
   ("notice_title", "提示"),
   ("label_text", "任务内容"),
   ("label_font", "字体"),
   ("label_font_size", "字号"),
   ("label_text_color", "文字颜色 (#RRGGBB)"),
   ("label_outline_color", "描边颜色 (#RRGGBB)"),
   ("label_transparency", "透明度 (0.2 - 1.0)"),
   ("label_language", "语言"),
   ("language_option_en", "英语"),
   ("language_option_zh", "中文"),
   ("menu_start", "开始任务"),
   ("menu_pause", "暂停任务"),
   ("menu_resume", "继续任务"),
   ("menu_stop", "终止任务"),
   ("menu_history", "查看任务历史"),
   ("prompt_start_title", "开始任务"),
   ("prompt_start_message", "请输入任务名称："),
   ("prompt_edit_title", "编辑任务"),
   ("prompt_edit_message", "修改任务内容："),
   ("pause_prefix", "暂停中"),
   ("no_task", "暂无任务"),
   ("history_title", "任务历史"),
   ("history_close", "关闭"),
   ("history_empty", "今天还没有任务记录。"),
   ("history_column_time", "时间"),
   ("history_column_event", "状态"),
   ("history_column_title", "任务"),
   ("history_date_label", "日期"),
   ("history_event_start", "已开始"),
   ("history_event_pause", "已暂停"),
   ("history_event_resume", "已继续"),
   ("history_event_stop", "已终止"),
   ("time_started", "开始时间"),
   ("time_elapsed_less_minute", "已过去不足1分钟"),
   ("time_elapsed_minutes", "已过去{minutes}分钟"),
   ("time_elapsed_hours", "已过去{hours}小时{minutes}分"),
   ("time_elapsed_hours_only", "已过去{hours}小时")]

/-- `constants.DEFAULT_LANGUAGE`.  Modelled from the spec: `constants.py` is
not in the repository snapshot; the spec documents a default language among
the supported codes `en`/`zh` for this Chinese-localised tool. -/
def DEFAULT_LANGUAGE : String := "zh"

/-- `i18n.get_strings`: the table for `language`, falling back to the table for
`DEFAULT_LANGUAGE`. -/
def getStrings (language : String) : List (String × String) :=
  if language = "en" then langStringsEn
  else if language = "zh" then langStringsZh
  else if DEFAULT_LANGUAGE = "en" then langStringsEn
  else langStringsZh

/-- `i18n.translate`: look the key up (the key itself is the fallback
template) and substitute the keyword arguments. -/
def translate (language key : String) (args : List (String × String)) : String :=
  pyFormat ((List.lookup key (getStrings language)).getD key) args

example : translate "en" "time_elapsed_minutes" [("minutes", "2")] = "Elapsed 2 minutes" := by decide
example : translate "en" "estimate_over_label" [("minutes", "1")] = "estimate_over_label" := by decide
example : translate "en" "no_task" [] = "No task" := by decide

/-- Python `int(x)` on an exact rational: truncation toward zero. -/
def pyTrunc (q : ℚ) : Int := if 0 ≤ q then ⌊q⌋ else ⌈q⌉

/-- `constants.ACTIVE_TEXT_COLOR`.  Modelled from the spec: `constants.py` is
not in the repository snapshot; the spec only requires a `#RRGGBB` color used
while a task is active. -/
def ACTIVE_TEXT_COLOR : String := "#ffd700"

/-- `constants.PAUSE_TEXT_COLOR`.  Modelled from the spec: `constants.py` is
not in the repository snapshot. -/
def PAUSE_TEXT_COLOR : String := "#a0a0a0"

/-- `constants.STOP_TEXT_COLOR`.  Modelled from the spec: `constants.py` is
not in the repository snapshot. -/
def STOP_TEXT_COLOR : String := "#d0d0d0"

/-- The session-relevant mutable state of `ui.TaskApp`: the two lifecycle
booleans, the wall-clock start time and accumulated paused duration (exact
seconds), the task title (`base_message`), the displayed text (`message`,
written by `set_message`), the optional estimate, the current text color and
the UI language. -/
structure Session where
  task_active : Bool
  paused : Bool
  start_time : Option ℚ
  elapsed_before_pause : ℚ
  base_message : String
  message : String
  estimate_minutes : Option Int
  text_color : String
  language : String
deriving DecidableEq

/-- A history event as recorded by `TaskApp._record_event`: the event name and
the stripped title. -/
abbrev Event := String × String

/-- `TaskApp._activate_task` (start): no-op for a whitespace-only name,
otherwise Active with a fresh start time; records `start` when asked to. -/
def activateTask (now : ℚ) (taskName : String) (estimate : Option Int)
    (recordEvent : Bool) (s : Session) : Session × List Event :=
  let name := pyStrip taskName
  if name = "" then (s, [])
  else
    ({ s with
        task_active := true
        paused := false
        start_time := some now
        elapsed_before_pause := 0
        base_message := name
        estimate_minutes := estimate
        text_color := ACTIVE_TEXT_COLOR
        message := name },
     if recordEvent then [("start", pyStrip name)] else [])

/-- `TaskApp.pause_task`: no-op when not active; resume when paused (start
time rebased to `now - elapsed_before_pause`, accumulator reset); otherwise
pause (accumulator captures `now - start_time`). -/
def pauseTask (now : ℚ) (s : Session) : Session × List Event :=
  if ¬s.task_active then (s, [])
  else if s.paused then
    let st : ℚ :=
      match s.start_time with
      | some _ => now - s.elapsed_before_pause
      | none => now
    ({ s with
        start_time := some st
        elapsed_before_pause := 0
        paused := false
        text_color := ACTIVE_TEXT_COLOR
        message := s.base_message },
     [("resume", pyStrip (pyOr s.base_message s.message))])
  else
    let ebp : ℚ :=
      match s.start_time with
      | some t0 => now - t0
      | none => s.elapsed_before_pause
    ({ s with
        elapsed_before_pause := ebp
        paused := true
        text_color := PAUSE_TEXT_COLOR
        message := translate s.language "pause_prefix" [] ++ " " ++ s.base_message },
     [("pause", pyStrip (pyOr s.base_message s.message))])

/-- `TaskApp.stop_task`: unconditionally clears the lifecycle state, shows the
no-task label in the stop color and records `stop` with the prior title. -/
def stopTask (s : Session) : Session × List Event :=
  let previousTitle := pyOr s.base_message s.message
  ({ s with
      task_active := false
      paused := false
      start_time := none
      elapsed_before_pause := 0
      base_message := translate s.language "no_task" []
      estimate_minutes := none
      text_color := STOP_TEXT_COLOR
      message := translate s.language "no_task" [] },
   [("stop", pyStrip (pyOr previousTitle ""))])

/-- `strftime("%H:%M")` of a timestamp measured in seconds. -/
def strftimeHM (t : ℚ) : String :=
  let secs := ⌊t⌋
  pad2 ((secs.fdiv 3600).fmod 24).toNat ++ ":" ++ pad2 ((secs.fdiv 60).fmod 60).toNat

/-- The elapsed-text chain of `TaskApp._format_time_text`, from the truncated
total seconds. -/
def elapsedTextOf (language : String) (totalSeconds : Int) : String :=
  if totalSeconds < 60 then translate language "time_elapsed_less_minute" []
  else
    let totalMinutes := totalSeconds.fdiv 60
    if totalMinutes < 60 then
      translate language "time_elapsed_minutes" [("minutes", toString totalMinutes)]
    else
      let hours := totalMinutes.fdiv 60
      let minutes := totalMinutes.fmod 60
      if minutes = 0 then
        translate language "time_elapsed_hours_only" [("hours", toString hours)]
      else
        translate language "time_elapsed_hours"
          [("hours", toString hours), ("minutes", toString minutes)]

/-- `TaskApp._format_time_text` at wall-clock time `now`. -/
def formatTimeText (now : ℚ) (s : Session) : String :=
  match s.start_time with
  | none => ""
  | some st =>
    let elapsed : ℚ :=
      s.elapsed_before_pause + (if s.task_active ∧ ¬s.paused then now - st else 0)
    translate s.language "time_started" [] ++ " " ++ strftimeHM st ++ "    " ++
      elapsedTextOf s.language (pyTrunc elapsed)

/-- `TaskApp._current_elapsed_seconds` at wall-clock time `now`. -/
def currentElapsedSeconds (now : ℚ) (s : Session) : Int :=
  match s.start_time with
  | none => 0
  | some st =>
    let elapsed : ℚ :=
      s.elapsed_before_pause + (if s.task_active ∧ ¬s.paused then now - st else 0)
    max 0 (pyTrunc elapsed)

/-- Python truthiness of `self._estimate_minutes`: `None` and `0` are falsy. -/
def estimateTruthy : Option Int → Bool
  | none => false
  | some n => n ≠ 0

/-- `TaskApp._format_estimate_text` at wall-clock time `now`: the `(text,
color)` pair.  The ratio is computed over the divisor clamped to at least one
second; the color bands have inclusive upper boundaries at 0.5, 0.8 and 1.0. -/
def formatEstimateText (now : ℚ) (s : Session) : String × String :=
  if ¬estimateTruthy s.estimate_minutes ∨ s.start_time = none then ("", "#ffffff")
  else
    let est := s.estimate_minutes.getD 0
    let elapsedSec := currentElapsedSeconds now s
    let estSec := max 1 (est * 60)
    let ratio : ℚ := (elapsedSec : ℚ) / (estSec : ℚ)
    let color :=
      if ratio ≤ 1/2 then "#4caf50"
      else if ratio ≤ 4/5 then "#ffeb3b"
      else if ratio ≤ 1 then "#ff9800"
      else "#ff3b30"
    if ratio ≤ 1 then
      (translate s.language "estimate_label" [("minutes", toString est)], color)
    else
      (translate s.language "estimate_over_label"
        [("minutes", toString ((elapsedSec - estSec + 59).fdiv 60))], color)

/-- A schedule entry as held in `self.schedule`: raw `"HH:MM"` strings and a
label. -/
structure ScheduleEntry where
  start : String
  endT : String
  label : String
deriving DecidableEq

/-- The selection loop of `TaskApp._schedule_tick`: scan the entries in list
order, skip entries whose times fail to parse, and return the first entry
(with its index) whose window contains `minutes`. -/
def scheduleSelect (minutes : Nat) : List ScheduleEntry → Option (Nat × ScheduleEntry)
  | [] => none
  | e :: rest =>
    match timeToMinutes e.start, timeToMinutes e.endT with
    | some s, some t =>
      if s ≤ minutes ∧ minutes < t then some (0, e)
      else (scheduleSelect minutes rest).map (fun p => (p.1 + 1, p.2))
    | _, _ => (scheduleSelect minutes rest).map (fun p => (p.1 + 1, p.2))

/-- The lock bookkeeping of `TaskApp`: `_last_schedule_lock` and
`_last_schedule_lock_timestamp` (seconds). -/
structure LockMemory where
  lastLock : Option (String × String × String)
  lastLockTs : Option ℚ
deriving DecidableEq

/-- `TaskApp._should_lock_again`: lock when the remembered marker differs,
when no timestamp is remembered, or when at least 15 seconds have elapsed. -/
def shouldLockAgain (mem : LockMemory) (marker : String × String × String)
    (now : ℚ) : Bool :=
  if mem.lastLock ≠ some marker then true
  else
    match mem.lastLockTs with
    | none => true
    | some ts => decide (now - ts ≥ 15)

/-- Outcome of one `_schedule_tick`: the updated lock memory, the selected
entry (with index), and whether the workstation lock was invoked. -/
structure TickResult where
  mem : LockMemory
  selected : Option (Nat × ScheduleEntry)
  locked : Bool
deriving DecidableEq

/-- `TaskApp._schedule_tick` (lock-relevant part) at date `today`, wall-clock
minute `minutes` and timestamp `now`: an empty schedule returns at once;
otherwise the first matching entry (if any) is shown, the lock fires when
`_should_lock_again` says so (memory then becomes the marker and `now`), and
with no match the lock memory is cleared. -/
def scheduleTick (schedule : List ScheduleEntry) (today : String)
    (minutes : Nat) (now : ℚ) (mem : LockMemory) : TickResult :=
  if schedule = [] then ⟨mem, none, false⟩
  else
    match scheduleSelect minutes schedule with
    | none => ⟨⟨none, none⟩, none, false⟩
    | some (i, e) =>
      let marker := (today, e.start, e.endT)
      if shouldLockAgain mem marker now then
        ⟨⟨some marker, some now⟩, some (i, e), true⟩
      else
        ⟨mem, some (i, e), false⟩

/-- Lock memory before the `k`-th of a run of ticks one second apart starting
at timestamp `t0`, where the wall-clock minute at tick `k` is `mins k`. -/
def memBefore (schedule : List ScheduleEntry) (today : String)
    (mins : Nat → Nat) (t0 : ℚ) (mem0 : LockMemory) : Nat → LockMemory
  | 0 => mem0
  | k + 1 =>
    (scheduleTick schedule today (mins k) (t0 + k) (memBefore schedule today mins t0 mem0 k)).mem

/-- Whether the `k`-th tick of the run described in `memBefore` locks. -/
def lockedAt (schedule : List ScheduleEntry) (today : String)
    (mins : Nat → Nat) (t0 : ℚ) (mem0 : LockMemory) (k : Nat) : Bool :=
  (scheduleTick schedule today (mins k) (t0 + k) (memBefore schedule today mins t0 mem0 k)).locked

/-- Stated from the spec sentence: an entry's window contains the minute when
both times parse and `start_minutes <= now_minutes < end_minutes`. -/
def specWindowContains (minutes : Nat) (e : ScheduleEntry) : Bool :=
  match timeToMinutes e.start, timeToMinutes e.endT with
  | some s, some t => decide (s ≤ minutes ∧ minutes < t)
  | _, _ => false

example :
    scheduleSelect 585
      [⟨"09:00", "10:00", "A"⟩, ⟨"09:30", "10:30", "B"⟩] =
      some (0, ⟨"09:00", "10:00", "A"⟩) := by decide
example :
    scheduleSelect 614
      [⟨"09:00", "10:00", "A"⟩, ⟨"09:30", "10:30", "B"⟩] =
      some (1, ⟨"09:30", "10:30", "B"⟩) := by decide
example : scheduleSelect 600 [⟨"09:00", "10:00", "A"⟩] = none := by decide

/-- A parsed JSON document as produced by `json.loads`: object fields are
key-unique and listed in document order; numbers keep the int/float
distinction. -/
inductive JVal where
  | null
  | bool (b : Bool)
  | int (n : Int)
  | float (q : ℚ)
  | str (s : String)
  | arr (xs : List JVal)
  | obj (fields : List (String × JVal))

/-- Python truthiness of a JSON-derived value. -/
def truthy : JVal → Bool
  | .null => false
  | .bool b => b
  | .int n => n != 0
  | .float q => q != 0
  | .str s => s != ""
  | .arr xs => !xs.isEmpty
  | .obj fs => !fs.isEmpty

/-- A digit run with single underscores strictly between digits, after its
first character: the `(?:_?digit)*` tail of Python's numeric literals (an
underscore must be followed by a digit). -/
def runTail (isD : Char → Bool) : List Char → Bool
  | [] => true
  | c :: rest =>
    if c = '_' then
      match rest with
      | [] => false
      | d :: rest2 => isD d && runTail isD rest2
    else
      isD c && runTail isD rest

/-- A non-empty digit run with single underscores between digits. -/
def digitRun (isD : Char → Bool) : List Char → Bool
  | [] => false
  | c :: rest => isD c && runTail isD rest

/-- Numeric value of a digit run, skipping underscores. -/
def natValOf (l : List Char) : Nat :=
  l.foldl (fun acc c => if c = '_' then acc else acc * 10 + (c.toNat - 48)) 0

/-- Python `int(s)` for a string in base 10: strip, optional sign, decimal
digit run. -/
def pyIntString (s : String) : Option Int :=
  match (pyStrip s).toList with
  | '+' :: rest => if digitRun isDigitChar rest then some (natValOf rest) else none
  | '-' :: rest => if digitRun isDigitChar rest then some (-(natValOf rest : Int)) else none
  | l => if digitRun isDigitChar l then some (natValOf l) else none

/-- An ASCII hexadecimal digit. -/
def isHexDigitChar (c : Char) : Bool :=
  isDigitChar c || ('a' ≤ c && c ≤ 'f') || ('A' ≤ c && c ≤ 'F')

/-- The part of a base-16 `int(...)` literal after a `0x` prefix: one optional
leading underscore, then a digit run. -/
def hexBody : List Char → Bool
  | [] => false
  | c :: rest =>
    if c = '_' then
      match rest with
      | [] => false
      | d :: rest2 => isHexDigitChar d && runTail isHexDigitChar rest2
    else
      isHexDigitChar c && runTail isHexDigitChar rest

/-- Strip one leading sign character. -/
def dropSign : List Char → List Char
  | [] => []
  | c :: rest => if c = '+' ∨ c = '-' then rest else c :: rest

/-- A base-16 `int(...)` literal after the optional sign: optional `0x`/`0X`
prefix, then a hexadecimal digit run with underscores between digits. -/
def hexAfterSign (l : List Char) : Bool :=
  match l with
  | c0 :: c1 :: rest =>
    if c0 = '0' ∧ (c1 = 'x' ∨ c1 = 'X') then hexBody rest
    else digitRun isHexDigitChar (c0 :: c1 :: rest)
  | l => digitRun isHexDigitChar l

/-- Whether Python `int(s, 16)` accepts `s`: strip, optional sign, optional
`0x`/`0X` prefix, hexadecimal digit run with underscores between digits. -/
def pyHex16Valid (s : String) : Bool :=
  hexAfterSign (dropSign (pyStrip s).toList)

/-- Multiplicity of `p` in `n`, with explicit fuel. -/
def multAux (p : Nat) : Nat → Nat → Nat
  | 0, _ => 0
  | fuel + 1, n => if n % p = 0 ∧ 1 < p ∧ 0 < n then multAux p fuel (n / p) + 1 else 0

/-- Multiplicity of `p` in `n`. -/
def multOf (p n : Nat) : Nat := multAux p n n

/-- `str(x)` of a Python float holding the exact value `q`, rendered in plain
decimal (Python floats reaching this embedding carry decimal rationals). -/
def pyFloatRepr (q : ℚ) : String :=
  if q.den = 1 then toString q.num ++ ".0"
  else
    let a := multOf 2 q.den
    let b := multOf 5 q.den
    if q.den = 2 ^ a * 5 ^ b then
      let k := max a b
      let mag := (q.num.natAbs * 10 ^ k) / q.den
      let sign := if q.num < 0 then "-" else ""
      let fs := toString (mag % 10 ^ k)
      sign ++ toString (mag / 10 ^ k) ++ "." ++
        (String.mk (List.replicate (k - fs.length) '0')) ++ fs
    else toString q

mutual

/-- Python `repr` of a JSON-derived value (string escaping simplified to
plain single quotes). -/
def pyRepr : JVal → String
  | .null => "None"
  | .bool b => if b then "True" else "False"
  | .int n => toString n
  | .float q => pyFloatRepr q
  | .str s => "'" ++ s ++ "'"
  | .arr xs => "[" ++ pyReprElems xs ++ "]"
  | .obj fs => "\x7b" ++ pyReprFields fs ++ "\x7d"

/-- Comma-separated `repr`s of list elements. -/
def pyReprElems : List JVal → String
  | [] => ""
  | [x] => pyRepr x
  | x :: y :: rest => pyRepr x ++ ", " ++ pyReprElems (y :: rest)

/-- Comma-separated `repr`s of dict items. -/
def pyReprFields : List (String × JVal) → String
  | [] => ""
  | [(k, v)] => "'" ++ k ++ "': " ++ pyRepr v
  | (k, v) :: y :: rest => "'" ++ k ++ "': " ++ pyRepr v ++ ", " ++ pyReprFields (y :: rest)

end

/-- Python `str(x)` of a JSON-derived value. -/
def pyStr : JVal → String
  | .str s => s
  | v => pyRepr v

/-- A Python float: an exact finite value, an infinity, or NaN. -/
inductive PyFloat where
  | fin (q : ℚ)
  | pinf
  | ninf
  | nan

/-- Split a character list at the first `e`/`E` (exponent marker). -/
def splitExp : List Char → List Char × Option (List Char)
  | [] => ([], none)
  | c :: rest =>
    if c = 'e' ∨ c = 'E' then ([], some rest)
    else
      let p := splitExp rest
      (c :: p.1, p.2)

/-- Split a character list at the first `.`. -/
def splitDot : List Char → List Char × Option (List Char)
  | [] => ([], none)
  | c :: rest =>
    if c = '.' then ([], some rest)
    else
      let p := splitDot rest
      (c :: p.1, p.2)

/-- Count of actual digits in a digit run (underscores excluded). -/
def digitCount (l : List Char) : Nat :=
  (l.filter (fun c => c ≠ '_')).length

/-- The mantissa of a Python float literal: `digits`, `digits.`, `digits.digits`
or `.digits`, giving the digits' value and the number of fractional digits. -/
def parseMantissa (l : List Char) : Option (Nat × Nat) :=
  match splitDot l with
  | (ip, none) => if digitRun isDigitChar ip then some (natValOf ip, 0) else none
  | ([], some fp) => if digitRun isDigitChar fp then some (natValOf fp, digitCount fp) else none
  | (ip, some []) => if digitRun isDigitChar ip then some (natValOf ip, 0) else none
  | (ip, some fp) =>
    if digitRun isDigitChar ip && digitRun isDigitChar fp then
      some (natValOf ip * 10 ^ digitCount fp + natValOf fp, digitCount fp)
    else none

/-- The exponent of a Python float literal: optional sign and a digit run. -/
def parseExpPart : List Char → Option Int
  | '+' :: rest => if digitRun isDigitChar rest then some (natValOf rest) else none
  | '-' :: rest => if digitRun isDigitChar rest then some (-(natValOf rest : Int)) else none
  | l => if digitRun isDigitChar l then some (natValOf l) else none

/-- Python `float(s)`: strip, optional sign, then `inf`/`infinity`/`nan`
(case-insensitive) or a decimal literal with optional exponent. -/
def pyFloatString (s : String) : Option PyFloat :=
  let t := (pyStrip s).toList
  let sp : Int × List Char :=
    match t with
    | '+' :: rest => (1, rest)
    | '-' :: rest => (-1, rest)
    | l => (1, l)
  let low := sp.2.map asciiLower
  if low = "inf".toList ∨ low = "infinity".toList then
    some (if sp.1 = 1 then .pinf else .ninf)
  else if low = "nan".toList then some .nan
  else
    match splitExp sp.2 with
    | (mant, none) =>
      (parseMantissa mant).map fun p =>
        .fin ((sp.1 * p.1 : ℤ) * (10 : ℚ) ^ (-(p.2 : ℤ)))
    | (mant, some ex) => do
      let p ← parseMantissa mant
      let e ← parseExpPart ex
      some (.fin ((sp.1 * p.1 : ℤ) * (10 : ℚ) ^ (e - (p.2 : ℤ))))

/-- Python `float(x)` of a JSON-derived value; `none` models an uncaught-type
(`TypeError`) or parse (`ValueError`) failure. -/
def pyFloatOfJ : JVal → Option PyFloat
  | .int n => some (.fin n)
  | .float q => some (.fin q)
  | .bool b => some (.fin (if b then 1 else 0))
  | .str s => pyFloatString s
  | .null => none
  | .arr _ => none
  | .obj _ => none

/-- Python `int(x)` of a JSON-derived value, with the same failure model. -/
def pyIntOfJ : JVal → Option Int
  | .int n => some n
  | .float q => some (pyTrunc q)
  | .bool b => some (if b then 1 else 0)
  | .str s => pyIntString s
  | .null => none
  | .arr _ => none
  | .obj _ => none

/-- `min(1.0, max(0.2, number))` under Python float comparison semantics
(comparisons against NaN are false, so NaN clamps to the lower bound). -/
def clampTransparency : PyFloat → ℚ
  | .fin q => if (if 1/5 < q then q else 1/5) < 1 then (if 1/5 < q then q else 1/5) else 1
  | .pinf => 1
  | .ninf => 1/5
  | .nan => 1/5

/-- `config.ensure_transparency`. -/
def ensureTransparency (v : JVal) (fallback : ℚ) : ℚ :=
  match v with
  | .null => fallback
  | _ =>
    match pyFloatOfJ v with
    | none => fallback
    | some x => clampTransparency x

/-- `config.ensure_font_size`. -/
def ensureFontSize (v : JVal) (fallback : Int) : Int :=
  match v with
  | .null => fallback
  | _ =>
    match pyIntOfJ v with
    | none => fallback
    | some n => max 8 (min 96 n)

/-- `config.is_valid_color`: truthy, and after `str(...).strip()` exactly 7
characters starting with `#` whose tail `int(..., 16)` accepts. -/
def isValidColor (v : JVal) : Bool :=
  if ¬truthy v then false
  else
    match (pyStrip (pyStr v)).toList with
    | '#' :: rest => rest.length = 6 && pyHex16Valid ⟨rest⟩
    | _ => false

/-- `config.ensure_color`. -/
def ensureColor (v : JVal) (fallback : String) : String :=
  if truthy v && isValidColor v then pyLower (pyStrip (pyStr v)) else fallback

/-- `i18n.SUPPORTED_LANGUAGES` (the keys of `LANG_STRINGS`, in order). -/
def SUPPORTED_LANGUAGES : List String := ["en", "zh"]

/-- `config.ensure_language`; a truthy non-string raises `AttributeError` at
`value.lower()`, modelled as `.error`. -/
def ensureLanguage (v : JVal) (fallback : String) : Except Unit String :=
  if ¬truthy v then .ok fallback
  else
    match v with
    | .str s => .ok (if pyLower s ∈ SUPPORTED_LANGUAGES then pyLower s else fallback)
    | _ => .error ()

/-- `config._normalize_time` on a JSON-derived value: falsy gives `None`, a
truthy string is stripped and parsed, and a truthy non-string raises
`AttributeError` at `value.strip()`, modelled as `.error`. -/
def normalizeTimeJ (v : JVal) : Except Unit (Option String) :=
  if ¬truthy v then .ok none
  else
    match v with
    | .str s => .ok (normCore s)
    | _ => .error ()

/-- Python string `<`: lexicographic comparison by code point. -/
def listLt : List Char → List Char → Bool
  | [], [] => false
  | [], _ :: _ => true
  | _ :: _, [] => false
  | a :: as, b :: bs =>
    if a.toNat < b.toNat then true
    else if b.toNat < a.toNat then false
    else listLt as bs

/-- Python `a < b` on strings. -/
def pyStrLt (a b : String) : Bool := listLt a.toList b.toList

/-- Python `a <= b` on strings. -/
def pyStrLe (a b : String) : Bool := !pyStrLt b a

/-- The per-item body of the `ensure_schedule` loop: `none` when the item is
dropped, `some entry` when it is kept. -/
def sanitizeItem (item : JVal) : Except Unit (Option ScheduleEntry) :=
  match item with
  | .obj fs =>
    match normalizeTimeJ ((List.lookup "start" fs).getD .null) with
    | .error e => .error e
    | .ok startN =>
      match normalizeTimeJ ((List.lookup "end" fs).getD .null) with
      | .error e => .error e
      | .ok endN =>
        let lv := (List.lookup "label" fs).getD .null
        let label := pyOr (pyStrip (if truthy lv then pyStr lv else "")) "Break"
        match startN, endN with
        | some st, some en =>
          if st = en then .ok none
          else if !pyStrLt st en then .ok none
          else .ok (some ⟨st, en, label⟩)
        | _, _ => .ok none
  | _ => .ok none

/-- Stable insertion of an entry after all earlier entries whose `start` key
is not greater: the effect of Python's stable `list.sort(key=start)`. -/
def insertByStart (e : ScheduleEntry) : List ScheduleEntry → List ScheduleEntry
  | [] => [e]
  | x :: xs => if pyStrLe x.start e.start then x :: insertByStart e xs else e :: x :: xs

/-- Stable sort by the `start` key. -/
def sortByStart (l : List ScheduleEntry) : List ScheduleEntry :=
  l.foldl (fun acc e => insertByStart e acc) []

/-- The `for` loop of `ensure_schedule`: sanitize each item in order,
appending the kept entries (propagating the `AttributeError` of a truthy
non-string time). -/
def scheduleLoop : List JVal → List ScheduleEntry → Except Unit (List ScheduleEntry)
  | [], acc => .ok acc
  | item :: rest, acc =>
    match sanitizeItem item with
    | .error e => .error e
    | .ok (some e) => scheduleLoop rest (acc ++ [e])
    | .ok none => scheduleLoop rest acc

/-- `config.ensure_schedule`: non-lists give `[]`; list items are sanitized in
order and the survivors are sorted by `start`. -/
def ensureSchedule (v : JVal) : Except Unit (List ScheduleEntry) :=
  match v with
  | .arr items =>
    match scheduleLoop items [] with
    | .error e => .error e
    | .ok entries => .ok (sortByStart entries)
  | _ => .ok []

/-- `constants.DEFAULT_MESSAGE`.  Modelled from the spec: `constants.py` is
not in the repository snapshot; the spec only requires a default display
message. -/
def DEFAULT_MESSAGE : String := "Stay focused"

/-- `constants.DEFAULT_FONT_FAMILY`.  Modelled from the spec: `constants.py`
is not in the repository snapshot. -/
def DEFAULT_FONT_FAMILY : String := "Microsoft YaHei"

/-- `constants.DEFAULT_FONT_SIZE`.  Modelled from the spec: `constants.py` is
not in the repository snapshot. -/
def DEFAULT_FONT_SIZE : Int := 28

/-- `constants.DEFAULT_TEXT_COLOR`.  Modelled from the spec: a `#RRGGBB`
color; `constants.py` is not in the repository snapshot. -/
def DEFAULT_TEXT_COLOR : String := "#ffffff"

/-- `constants.DEFAULT_OUTLINE_COLOR`.  Modelled from the spec: a `#RRGGBB`
color; `constants.py` is not in the repository snapshot. -/
def DEFAULT_OUTLINE_COLOR : String := "#000000"

/-- `constants.DEFAULT_TRANSPARENCY`.  Modelled from the spec: a value in the
documented `0.2 - 1.0` range; `constants.py` is not in the repository
snapshot. -/
def DEFAULT_TRANSPARENCY : ℚ := 17/20

/-- `config.TaskConfig`. -/
structure TaskConfig where
  message : String
  x : Option Int
  y : Option Int
  font_family : String
  font_size : Int
  text_color : String
  outline_color : String
  transparency : ℚ
  language : String
  schedule : List ScheduleEntry
deriving DecidableEq

/-- `TaskConfig()` with all defaults. -/
def defaultTaskConfig : TaskConfig :=
  ⟨DEFAULT_MESSAGE, none, none, DEFAULT_FONT_FAMILY, DEFAULT_FONT_SIZE,
   DEFAULT_TEXT_COLOR, DEFAULT_OUTLINE_COLOR, DEFAULT_TRANSPARENCY,
   DEFAULT_LANGUAGE, []⟩

/-- What `TaskConfig.load` finds at its path: no file, an unreadable file, a
file that is not JSON, or a parsed JSON document. -/
inductive ConfigFile where
  | missing
  | ioError
  | badJson
  | json (v : JVal)

/-- Python `isinstance(v, int)` keeping the value; `bool` is an `int`
subtype. -/
def pyIsInt : JVal → Option Int
  | .int n => some n
  | .bool b => some (if b then 1 else 0)
  | _ => none

/-- `config.TaskConfig.load`: a missing, unreadable or non-JSON file yields
the defaults; a JSON object is normalized field by field; top-level JSON that
is not an object, a truthy non-string `language`, or a truthy non-string
schedule time raises (modelled as `.error`). -/
def TaskConfig.load : ConfigFile → Except Unit TaskConfig
  | .missing => .ok defaultTaskConfig
  | .ioError => .ok defaultTaskConfig
  | .badJson => .ok defaultTaskConfig
  | .json (.obj fs) =>
    let get := fun k => (List.lookup k fs).getD JVal.null
    let msgV := get "message"
    let message := pyOr (pyStrip (if truthy msgV then pyStr msgV else "")) DEFAULT_MESSAGE
    let x := pyIsInt (get "x")
    let y := pyIsInt (get "y")
    let ffV := get "font_family"
    let font_family :=
      pyOr (pyStrip (if truthy ffV then pyStr ffV else DEFAULT_FONT_FAMILY)) DEFAULT_FONT_FAMILY
    let font_size := ensureFontSize (get "font_size") DEFAULT_FONT_SIZE
    let text_color := ensureColor (get "text_color") DEFAULT_TEXT_COLOR
    let outline_color := ensureColor (get "outline_color") DEFAULT_OUTLINE_COLOR
    let transparency := ensureTransparency (get "transparency") DEFAULT_TRANSPARENCY
    match ensureLanguage (get "language") DEFAULT_LANGUAGE with
    | .error e => .error e
    | .ok language =>
      match ensureSchedule (get "schedule") with
      | .error e => .error e
      | .ok schedule =>
        .ok ⟨message, x, y, font_family, font_size, text_color, outline_color,
             transparency, language, schedule⟩
  | .json _ => .error ()

/-- `Option Int` to JSON. -/
def optIntJ : Option Int → JVal
  | none => .null
  | some n => .int n

/-- `config.TaskConfig.save`: the JSON object written by
`json.dumps(asdict(self))`, fields in dataclass order. -/
def TaskConfig.save (c : TaskConfig) : JVal :=
  .obj
    [("message", .str c.message), ("x", optIntJ c.x), ("y", optIntJ c.y),
     ("font_family", .str c.font_family), ("font_size", .int c.font_size),
     ("text_color", .str c.text_color), ("outline_color", .str c.outline_color),
     ("transparency", .float c.transparency), ("language", .str c.language),
     ("schedule", .arr (c.schedule.map fun e =>
        .obj [("start", .str e.start), ("end", .str e.endT), ("label", .str e.label)]))]

/-- `history.TaskRecord` as reconstructed by `load_history`: `timestamp` and
`event` are checked to be strings; `title` is kept as found (default `""`). -/
structure HRecord where
  timestamp : String
  event : String
  title : JVal

/-- The inner record loop of `load_history`: non-dict items and items without
string `timestamp` and `event` are skipped. -/
def parseItems (records : List JVal) : List HRecord :=
  records.filterMap fun item =>
    match item with
    | .obj fs =>
      match List.lookup "timestamp" fs, List.lookup "event" fs with
      | some (.str ts), some (.str ev) =>
        some ⟨ts, ev, (List.lookup "title" fs).getD (.str "")⟩
      | _, _ => none
    | _ => none

/-- What `load_history` finds at its path. -/
inductive HistoryFile where
  | missing
  | ioError
  | badJson
  | json (v : JVal)

/-- `history.load_history`: missing, unreadable or non-JSON files give an
empty history; a JSON object keeps, per date key, the list values whose
well-formed records are non-empty; top-level JSON that is not an object
raises `AttributeError` at `raw.items()`, modelled as `.error`. -/
def loadHistory : HistoryFile → Except Unit (List (String × List HRecord))
  | .missing => .ok []
  | .ioError => .ok []
  | .badJson => .ok []
  | .json (.obj fs) =>
    .ok (fs.filterMap fun kv =>
      match kv.2 with
      | .arr records =>
        let parsed := parseItems records
        if parsed.isEmpty then none else some (kv.1, parsed)
      | _ => none)
  | .json _ => .error ()

example : timeToMinutes "09:30" = some 570 := by decide
example : timeToMinutes "9:30" = some 570 := by decide
example : timeToMinutes "24:00" = none := by decide
example : timeToMinutes "09:60" = none := by decide
example : timeToMinutes "09:301" = none := by decide
example : normCore " 9:05 " = some "09:05" := by decide
example : pyStrip "  a b\t" = "a b" := by decide

/-- Stated from the claim: what history loading keeps for a JSON object —
per date key, the well-formed records of its list value, dropping keys whose
value is not a list or whose well-formed records are empty. -/
def specHistory (flds : List (String × JVal)) : List (String × List HRecord) :=
  flds.filterMap fun kv =>
    match kv.2 with
    | .arr records =>
      let parsed := parseItems records
      if parsed.isEmpty then none else some (kv.1, parsed)
    | _ => none


/-- Stated from the claim: a schedule time field as sanitization reads it —
only a non-empty string parses, yielding the normalized `"HH:MM"`. -/
def specTime : JVal → Option String
  | .str s => if s = "" then none else normCore s
  | _ => none

/-- Stated from the claim: the entry kept for a schedule item — a dict whose
start and end parse and satisfy `start < end`, with the stripped label
defaulting to `"Break"`; anything else is dropped. -/
def specKeep : JVal → Option ScheduleEntry
  | .obj fs =>
    match specTime ((List.lookup "start" fs).getD .null),
          specTime ((List.lookup "end" fs).getD .null) with
    | some st, some en =>
      if pyStrLt st en = true then
        some ⟨st, en,
          pyOr (pyStrip (if truthy ((List.lookup "label" fs).getD .null)
                         then pyStr ((List.lookup "label" fs).getD .null) else "")) "Break"⟩
      else none
    | _, _ => none
  | _ => none

/-- A time field value on which sanitization cannot raise: falsy, or a
string. -/
def TimeFieldTame (v : JVal) : Prop :=
  truthy v = false ∨ ∃ s, v = JVal.str s

/-- A schedule item whose start/end fields cannot make sanitization raise. -/
def ItemTame (item : JVal) : Prop :=
  ∀ fs, item = JVal.obj fs →
    TimeFieldTame ((List.lookup "start" fs).getD .null) ∧
    TimeFieldTame ((List.lookup "end" fs).getD .null)


/-- A normalized `"HH:MM"` time, the exact shape `_normalize_time` emits. -/
def timeNormal (tv : String) : Prop :=
  ∃ h, h < 24 ∧ ∃ m, m < 60 ∧ tv = hmFormat h m

/-- A normalized color, the exact shape `ensure_color` emits. -/
def colorNormal (c : String) : Prop :=
  isValidColor (.str c) = true ∧ pyLower c = c ∧ pyStrip c = c

/-- A normalized schedule entry, the exact shape `ensure_schedule` emits. -/
def entryNormal (e : ScheduleEntry) : Prop :=
  timeNormal e.start ∧ timeNormal e.endT ∧ pyStrLt e.start e.endT = true ∧
  pyStrip e.label = e.label ∧ e.label ≠ ""

/-- A fully normalized config, the shape `TaskConfig.load` produces. -/
def Normalized (c : TaskConfig) : Prop :=
  pyStrip c.message = c.message ∧ c.message ≠ "" ∧
  pyStrip c.font_family = c.font_family ∧ c.font_family ≠ "" ∧
  8 ≤ c.font_size ∧ c.font_size ≤ 96 ∧
  colorNormal c.text_color ∧ colorNormal c.outline_color ∧
  1/5 ≤ c.transparency ∧ c.transparency ≤ 1 ∧
  (c.language = "en" ∨ c.language = "zh") ∧
  (∀ e ∈ c.schedule, entryNormal e) ∧
  c.schedule.Pairwise (fun a b => pyStrLe a.start b.start = true)


/-- The JSON object `asdict` produces for one schedule entry. -/
def entryJ (e : ScheduleEntry) : JVal :=
  .obj [("start", .str e.start), ("end", .str e.endT), ("label", .str e.label)]

/-- The spec's session invariant: `paused` implies `task_active`, and an
active session always has a start time. -/
def SessionInv (s : Session) : Prop :=
  (s.paused = true → s.task_active = true) ∧
  (s.task_active = true → s.start_time ≠ none)

/-- C4 (counterexample): in the Idle state (`task_active` false, `paused`
false, `start_time` `None`), `stop_task` is not a no-op: it records a `stop`
history event carrying the prior title and overwrites the displayed message
with the no-task label. -/
theorem claim_C4_counterexample :
    (stopTask ⟨false, false, none, 0, "hello", "hello", none, "#ffffff", "en"⟩).2 =
      [("stop", "hello")] ∧
    (stopTask ⟨false, false, none, 0, "hello", "hello", none, "#ffffff", "en"⟩).1.message =
      "No task" := by
  constructor <;> rfl

/-- C4 (amended): for an Idle session, `pause_task` is a strict no-op (state
unchanged, no event); `stop_task` leaves `task_active`, `paused` and
`start_time` at their Idle values and zeroes the accumulator, but sets the
no-task message in the stop color, clears the estimate, and records a `stop`
event with the prior title. -/
theorem claim_C4_idle_pause_noop_stop_records :
    ∀ (s : Session) (now : ℚ),
      s.task_active = false → s.paused = false → s.start_time = none →
      pauseTask now s = (s, []) ∧
      stopTask s =
        ({ s with
            elapsed_before_pause := 0
            base_message := translate s.language "no_task" []
            estimate_minutes := none
            text_color := STOP_TEXT_COLOR
            message := translate s.language "no_task" [] },
         [("stop", pyStrip (pyOr (pyOr s.base_message s.message) ""))]) := by
  intro s now h1 h2 h3
  obtain ⟨ta, p, st, ebp, bm, msg, est, tc, lang⟩ := s
  simp only at h1 h2 h3
  subst h1; subst h2; subst h3
  exact ⟨by simp [pauseTask], by simp [stopTask]⟩

/-- C4 witness. -/
theorem claim_C4_witness :
    pauseTask 7 ⟨false, false, none, 0, "hello", "hello", none, "#ffffff", "en"⟩ =
      (⟨false, false, none, 0, "hello", "hello", none, "#ffffff", "en"⟩, []) ∧
    stopTask ⟨false, false, none, 0, "hello", "hello", none, "#ffffff", "en"⟩ =
      (⟨false, false, none, 0, translate "en" "no_task" [], translate "en" "no_task" [],
        none, STOP_TEXT_COLOR, "en"⟩,
       [("stop", pyStrip (pyOr (pyOr "hello" "hello") ""))]) :=
  claim_C4_idle_pause_noop_stop_records
    ⟨false, false, none, 0, "hello", "hello", none, "#ffffff", "en"⟩ 7 rfl rfl rfl

/-- C5: `start` (`_activate_task`), `pause`/`resume` (`pause_task`) and `stop`
(`stop_task`) all preserve the invariant that `paused` implies `task_active`
and that an active session has a start time. -/
theorem claim_C5_operations_preserve_invariant :
    ∀ (s : Session) (t now : ℚ) (name : String) (est : Option Int) (rcd : Bool),
      SessionInv s →
      SessionInv (activateTask t name est rcd s).1 ∧
      SessionInv (pauseTask now s).1 ∧
      SessionInv (stopTask s).1 := by
  intro s t now name est rcd hinv
  obtain ⟨h1, h2⟩ := hinv
  obtain ⟨ta, p, st, ebp, bm, msg, est', tc, lang⟩ := s
  simp only at h1 h2
  refine ⟨?_, ?_, ?_⟩
  · unfold activateTask SessionInv
    by_cases hn : pyStrip name = ""
    · simpa [hn] using ⟨h1, h2⟩
    · simp [hn]
  · unfold pauseTask SessionInv
    cases ta <;> cases p <;> simp_all
  · unfold stopTask SessionInv
    simp

/-- C5 witness. -/
theorem claim_C5_witness :
    SessionInv ⟨true, false, some 3, 0, "t", "t", none, "#ffffff", "en"⟩ ∧
    SessionInv (activateTask 1 "job" (some 10) true
      ⟨true, false, some 3, 0, "t", "t", none, "#ffffff", "en"⟩).1 ∧
    SessionInv (pauseTask 9 ⟨true, false, some 3, 0, "t", "t", none, "#ffffff", "en"⟩).1 ∧
    SessionInv (stopTask ⟨true, false, some 3, 0, "t", "t", none, "#ffffff", "en"⟩).1 := by
  have h : SessionInv ⟨true, false, some 3, 0, "t", "t", none, "#ffffff", "en"⟩ := by
    constructor <;> simp
  have := claim_C5_operations_preserve_invariant
    ⟨true, false, some 3, 0, "t", "t", none, "#ffffff", "en"⟩ 1 9 "job" (some 10) true h
  exact ⟨h, this.1, this.2.1, this.2.2⟩

/-- `int(...)` of an integer-valued rational is that integer. -/
lemma pyTrunc_intCast (n : ℤ) : pyTrunc (n : ℚ) = n := by
  unfold pyTrunc
  split <;> simp

/-- C3: resuming (`pause_task` in the Paused state) rebases
`start_time = now - elapsed_before_pause` and zeroes the accumulator, and this
preserves the displayed elapsed seconds at the resume instant; consequently
start, pause at +90s, resume at any `t1`, pause at `t1`+30s leaves an
accumulator of 120 seconds, and the time text then reads `Elapsed 2 minutes`
(with the rebased start time) at every display instant. -/
theorem claim_C3_resume_algebra :
    (∀ (now : ℚ) (s : Session),
      s.task_active = true → s.paused = true → s.start_time ≠ none →
      (pauseTask now s).1.start_time = some (now - s.elapsed_before_pause) ∧
      (pauseTask now s).1.elapsed_before_pause = 0) ∧
    (∀ (now : ℚ) (s : Session),
      s.task_active = true → s.paused = true → s.start_time ≠ none →
      currentElapsedSeconds now (pauseTask now s).1 = currentElapsedSeconds now s) ∧
    (∀ (t0 t1 t' : ℚ) (name : String) (est : Option Int) (s0 : Session),
      s0.language = "en" → pyStrip name ≠ "" →
      (pauseTask (t1 + 30)
          (pauseTask t1
            (pauseTask (t0 + 90)
              (activateTask t0 name est true s0).1).1).1).1.elapsed_before_pause = 120 ∧
      formatTimeText t'
          (pauseTask (t1 + 30)
            (pauseTask t1
              (pauseTask (t0 + 90)
                (activateTask t0 name est true s0).1).1).1).1 =
        "Start Time" ++ " " ++ strftimeHM (t1 - 90) ++ "    " ++ "Elapsed 2 minutes") := by
  refine ⟨?_, ?_, ?_⟩
  · intro now s h1 h2 h3
    obtain ⟨v, hv⟩ : ∃ v, s.start_time = some v := by
      cases hs : s.start_time
      · exact absurd hs h3
      · exact ⟨_, rfl⟩
    simp [pauseTask, h1, h2, hv]
  · intro now s h1 h2 h3
    obtain ⟨v, hv⟩ : ∃ v, s.start_time = some v := by
      cases hs : s.start_time
      · exact absurd hs h3
      · exact ⟨_, rfl⟩
    simp [pauseTask, h1, h2, hv, currentElapsedSeconds]
  · intro t0 t1 t2 name est s0 hlang hname
    obtain ⟨ta, p, st, ebp, bm, msg, est2, tc, lang⟩ := s0
    simp only at hlang
    subst hlang
    simp only [activateTask, pauseTask, hname, if_neg, if_false, Bool.not_true,
      Bool.false_eq_true, if_true]
    norm_num
    simp only [formatTimeText]
    norm_num
    have e3 : pyTrunc (120 : ℚ) = (120 : ℤ) := by
      rw [show ((120 : ℚ)) = ((120 : ℤ) : ℚ) by norm_num, pyTrunc_intCast]
    rw [e3]
    rfl

/-- C3 witness. -/
theorem claim_C3_witness :
    (pauseTask (200 + 30)
        (pauseTask 200
          (pauseTask (0 + 90)
            (activateTask 0 "write report" none true
              ⟨false, false, none, 0, "x", "x", none, "#ffffff", "en"⟩).1).1).1).1.elapsed_before_pause
        = 120 ∧
    formatTimeText 500
        (pauseTask (200 + 30)
          (pauseTask 200
            (pauseTask (0 + 90)
              (activateTask 0 "write report" none true
                ⟨false, false, none, 0, "x", "x", none, "#ffffff", "en"⟩).1).1).1).1 =
      "Start Time" ++ " " ++ strftimeHM (200 - 90) ++ "    " ++ "Elapsed 2 minutes" :=
  claim_C3_resume_algebra.2.2 0 200 500 "write report" none
    ⟨false, false, none, 0, "x", "x", none, "#ffffff", "en"⟩ rfl (by decide)

/-- C10: estimate-text formatting is total and guarded: when no (positive)
estimate is set or there is no start time it yields the empty text with the
neutral color; the elapsed seconds it reads are clamped at 0; the divisor is
`estimate_minutes*60` floored at 1; and in the guarded branch the color is
always one of the four band colors. -/
theorem claim_C10_estimate_text_totality :
    ∀ (now : ℚ) (s : Session),
      (s.estimate_minutes = none ∨ ∃ n, s.estimate_minutes = some n ∧ 0 < n) →
      ((s.estimate_minutes = none ∨ s.start_time = none) →
        formatEstimateText now s = ("", "#ffffff")) ∧
      0 ≤ currentElapsedSeconds now s ∧
      (∀ n, s.estimate_minutes = some n → (1 : ℤ) ≤ max 1 (n * 60)) ∧
      (∀ n, s.estimate_minutes = some n → 0 < n → s.start_time ≠ none →
        (formatEstimateText now s).2 ∈ ["#4caf50", "#ffeb3b", "#ff9800", "#ff3b30"]) := by
  intro now s _hreach
  refine ⟨?_, ?_, ?_, ?_⟩
  · intro h
    unfold formatEstimateText
    rcases h with h | h
    · rw [if_pos]
      left
      simp [h, estimateTruthy]
    · rw [if_pos]
      right
      exact h
  · unfold currentElapsedSeconds
    cases s.start_time
    · simp
    · simp
  · intro n _
    exact le_max_left 1 (n * 60)
  · intro n hn hpos hst
    obtain ⟨v, hv⟩ : ∃ v, s.start_time = some v := by
      cases hs : s.start_time
      · exact absurd hs hst
      · exact ⟨_, rfl⟩
    unfold formatEstimateText
    rw [if_neg]
    · dsimp only
      split_ifs <;> simp
    · rw [hn, hv]
      simp [estimateTruthy]
      omega
  
/-- C10 witness. -/
theorem claim_C10_witness :
    formatEstimateText 300 ⟨false, false, none, 0, "t", "t", none, "#ffffff", "en"⟩ =
      ("", "#ffffff") ∧
    0 ≤ currentElapsedSeconds 300 ⟨true, false, some 0, 0, "t", "t", some 10, "#ffffff", "en"⟩ ∧
    (formatEstimateText 300 ⟨true, false, some 0, 0, "t", "t", some 10, "#ffffff", "en"⟩).2 ∈
      ["#4caf50", "#ffeb3b", "#ff9800", "#ff3b30"] := by
  have h1 := claim_C10_estimate_text_totality 300
    ⟨false, false, none, 0, "t", "t", none, "#ffffff", "en"⟩ (Or.inl rfl)
  have h2 := claim_C10_estimate_text_totality 300
    ⟨true, false, some 0, 0, "t", "t", some 10, "#ffffff", "en"⟩
    (Or.inr ⟨10, rfl, by norm_num⟩)
  exact ⟨h1.1 (Or.inl rfl), h2.2.1, h2.2.2.2 10 rfl (by norm_num) (by simp)⟩

/-- C6 (code evaluated at the failing input): with elapsed 11 minutes (660 s)
against a 10-minute estimate the code computes minutes-over
`(660 - 600 + 59) // 60 = 1` and picks the over-band color, but the displayed
text is the literal key `estimate_over_label`: that key is absent from both
language tables of `LANG_STRINGS`, so `translate` falls back to the key
itself and the computed minutes-over never reaches the display. -/
theorem claim_C6_missing_key_at_failing_input :
    formatEstimateText 660 ⟨true, false, some 0, 0, "t", "t", some 10, "#ffffff", "en"⟩ =
      ("estimate_over_label", "#ff3b30") ∧
    ((660 : ℤ) - 600 + 59).fdiv 60 = 1 ∧
    (List.lookup "estimate_over_label" langStringsEn = none ∧
     List.lookup "estimate_over_label" langStringsZh = none) := by
  refine ⟨?_, by decide, by constructor <;> rfl⟩
  have hel : currentElapsedSeconds 660 ⟨true, false, some 0, 0, "t", "t", some 10, "#ffffff", "en"⟩
      = (660 : ℤ) := by
    unfold currentElapsedSeconds
    norm_num
    rw [show ((660 : ℚ)) = ((660 : ℤ) : ℚ) by norm_num, pyTrunc_intCast]
    decide
  unfold formatEstimateText
  rw [if_neg (by simp [estimateTruthy])]
  dsimp only
  rw [hel]
  norm_num
  rfl

/-- `scheduleSelect` returns nothing exactly when no entry's window contains
the minute. -/
lemma scheduleSelect_none_iff (minutes : Nat) :
    ∀ entries : List ScheduleEntry,
      scheduleSelect minutes entries = none ↔
        ∀ e ∈ entries, specWindowContains minutes e = false := by
  intro entries
  induction entries with
  | nil => simp [scheduleSelect]
  | cons a rest ih =>
    cases h1 : timeToMinutes a.start with
    | none => simp [scheduleSelect, Option.map_eq_none', ih, specWindowContains, h1]
    | some s =>
      cases h2 : timeToMinutes a.endT with
      | none => simp [scheduleSelect, Option.map_eq_none', ih, specWindowContains, h1, h2]
      | some t =>
        by_cases hc : s ≤ minutes ∧ minutes < t
        · simp [scheduleSelect, specWindowContains, h1, h2, hc]
        · simp [scheduleSelect, Option.map_eq_none', ih, specWindowContains, h1, h2, hc]
          intro _ _
          omega

/-- When `scheduleSelect` picks `(i, e)`, `e` is the `i`-th entry, its window
contains the minute, and no earlier entry's window does. -/
lemma scheduleSelect_some_charn (minutes : Nat) :
    ∀ (entries : List ScheduleEntry) (i : Nat) (e : ScheduleEntry),
      scheduleSelect minutes entries = some (i, e) →
      entries[i]? = some e ∧ specWindowContains minutes e = true ∧
        ∀ j, j < i → ∀ ex, entries[j]? = some ex →
          specWindowContains minutes ex = false := by
  intro entries
  induction entries with
  | nil => intro i e h; simp [scheduleSelect] at h
  | cons a rest ih =>
    intro i e h
    rw [scheduleSelect] at h
    have tail :
        (scheduleSelect minutes rest).map (fun p => (p.1 + 1, p.2)) = some (i, e) →
        specWindowContains minutes a = false →
        (a :: rest)[i]? = some e ∧ specWindowContains minutes e = true ∧
          ∀ j, j < i → ∀ ex, (a :: rest)[j]? = some ex →
            specWindowContains minutes ex = false := by
      intro hmap ha
      rcases Option.map_eq_some'.1 hmap with ⟨⟨i2, e2⟩, hrec, heq⟩
      simp only [Prod.mk.injEq] at heq
      obtain ⟨hi, he⟩ := heq
      subst hi; subst he
      obtain ⟨hg, hw, hprev⟩ := ih i2 e2 hrec
      refine ⟨by simpa using hg, hw, ?_⟩
      intro j hj ex hex
      cases j with
      | zero =>
        simp only [List.getElem?_cons_zero, Option.some.injEq] at hex
        subst hex
        exact ha
      | succ j2 =>
        exact hprev j2 (by omega) ex (by simpa using hex)
    cases h1 : timeToMinutes a.start with
    | none =>
      rw [h1] at h
      dsimp only at h
      exact tail h (by simp [specWindowContains, h1])
    | some s =>
      cases h2 : timeToMinutes a.endT with
      | none =>
        rw [h1, h2] at h
        dsimp only at h
        exact tail h (by simp [specWindowContains, h1, h2])
      | some t =>
        rw [h1, h2] at h
        dsimp only at h
        by_cases hc : s ≤ minutes ∧ minutes < t
        · rw [if_pos hc] at h
          obtain ⟨hi, he⟩ : 0 = i ∧ a = e := by
            obtain ⟨h3, h4⟩ := Prod.mk.injEq .. ▸ Option.some.inj h
            exact ⟨h3, h4⟩
          subst hi
          subst he
          refine ⟨by simp, by simp [specWindowContains, h1, h2, hc], ?_⟩
          intro j hj
          omega
        · rw [if_neg hc] at h
          exact tail h (by simp [specWindowContains, h1, h2, hc])

/-- C1: the schedule tick selects exactly the first entry in list order whose
parsed window contains the current minute (`start <= now < end`); overlapping
earlier-listed entries win, and when no window contains the minute (in
particular for an empty list) nothing is selected. -/
theorem claim_C1_first_matching_entry_selected :
    ∀ (minutes : Nat) (entries : List ScheduleEntry),
      (scheduleSelect minutes entries = none ↔
        ∀ e ∈ entries, specWindowContains minutes e = false) ∧
      (∀ i e, scheduleSelect minutes entries = some (i, e) →
        entries[i]? = some e ∧ specWindowContains minutes e = true ∧
          ∀ j, j < i → ∀ ex, entries[j]? = some ex →
            specWindowContains minutes ex = false) :=
  fun minutes entries =>
    ⟨scheduleSelect_none_iff minutes entries,
     scheduleSelect_some_charn minutes entries⟩

/-- C1 witness: the spec's overlap example, `A(09:00-10:00)` before
`B(09:30-10:30)` at 09:45, and an out-of-window minute. -/
theorem claim_C1_witness :
    scheduleSelect 585 [⟨"09:00", "10:00", "A"⟩, ⟨"09:30", "10:30", "B"⟩] =
      some (0, ⟨"09:00", "10:00", "A"⟩) ∧
    specWindowContains 585 ⟨"09:00", "10:00", "A"⟩ = true ∧
    (scheduleSelect 700 [⟨"09:00", "10:00", "A"⟩, ⟨"09:30", "10:30", "B"⟩] = none ↔
      ∀ e ∈ [(⟨"09:00", "10:00", "A"⟩ : ScheduleEntry), ⟨"09:30", "10:30", "B"⟩],
        specWindowContains 700 e = false) := by
  refine ⟨by decide, ?_, ?_⟩
  · exact ((claim_C1_first_matching_entry_selected 585
      [⟨"09:00", "10:00", "A"⟩, ⟨"09:30", "10:30", "B"⟩]).2 0 ⟨"09:00", "10:00", "A"⟩
      (by decide)).2.1
  · exact (claim_C1_first_matching_entry_selected 700
      [⟨"09:00", "10:00", "A"⟩, ⟨"09:30", "10:30", "B"⟩]).1

/-- `_should_lock_again` fires exactly for a different (or absent) marker, an
absent timestamp, or an elapsed re-lock interval of at least 15 seconds. -/
lemma shouldLockAgain_iff (mem : LockMemory) (marker : String × String × String)
    (now : ℚ) :
    shouldLockAgain mem marker now = true ↔
      (mem.lastLock ≠ some marker ∨ mem.lastLockTs = none ∨
        ∃ ts, mem.lastLockTs = some ts ∧ 15 ≤ now - ts) := by
  unfold shouldLockAgain
  by_cases h : mem.lastLock ≠ some marker
  · simp [h]
  · rw [if_neg (by simpa using h)]
    cases hts : mem.lastLockTs with
    | none => simp [h, hts]
    | some ts => simp [h, hts, ge_iff_le]

/-- One tick inside a window with a cleared or same-marker memory: the lock
memory after tick `k` of a run holds the marker and the timestamp of the most
recent multiple-of-15 tick, and tick `k` locks exactly when `15 ∣ k`. -/
lemma lockRun (sched : List ScheduleEntry) (today : String) (mins : Nat → Nat)
    (t0 : ℚ) (i : Nat) (e : ScheduleEntry) (hne : sched ≠ []) (n : Nat)
    (hsel : ∀ k, k ≤ n → scheduleSelect (mins k) sched = some (i, e)) :
    ∀ k, k ≤ n →
      memBefore sched today mins t0 ⟨none, none⟩ (k + 1) =
        ⟨some (today, e.start, e.endT), some (t0 + ((15 * (k / 15) : ℕ) : ℚ))⟩ ∧
      lockedAt sched today mins t0 ⟨none, none⟩ k = decide (k % 15 = 0) := by
  intro k
  induction k with
  | zero =>
    intro hk
    constructor
    · show (scheduleTick sched today (mins 0) (t0 + ((0 : ℕ) : ℚ))
          (memBefore sched today mins t0 ⟨none, none⟩ 0)).mem = _
      simp only [memBefore, scheduleTick, if_neg hne, hsel 0 (by omega)]
      simp [shouldLockAgain]
    · show (scheduleTick sched today (mins 0) (t0 + ((0 : ℕ) : ℚ))
          (memBefore sched today mins t0 ⟨none, none⟩ 0)).locked = _
      simp only [memBefore, scheduleTick, if_neg hne, hsel 0 (by omega)]
      simp [shouldLockAgain]
  | succ k ihk =>
    intro hk
    have prev := ihk (by omega)
    have hstep :
        memBefore sched today mins t0 ⟨none, none⟩ (k + 1 + 1) =
          (scheduleTick sched today (mins (k + 1)) (t0 + ((k + 1 : ℕ) : ℚ))
            (memBefore sched today mins t0 ⟨none, none⟩ (k + 1))).mem := rfl
    have hcond :
        shouldLockAgain
            ⟨some (today, e.start, e.endT), some (t0 + ((15 * (k / 15) : ℕ) : ℚ))⟩
            (today, e.start, e.endT) (t0 + ((k + 1 : ℕ) : ℚ)) =
          decide ((k + 1) % 15 = 0) := by
      have harith :
          (15 ≤ (t0 + ((k + 1 : ℕ) : ℚ)) - (t0 + ((15 * (k / 15) : ℕ) : ℚ))) ↔
            ((k + 1) % 15 = 0) := by
        have hs : (t0 + ((k + 1 : ℕ) : ℚ)) - (t0 + ((15 * (k / 15) : ℕ) : ℚ)) =
            ((k + 1 : ℕ) : ℚ) - ((15 * (k / 15) : ℕ) : ℚ) := by ring
        rw [hs, le_sub_iff_add_le]
        rw [show (15 : ℚ) = ((15 : ℕ) : ℚ) by norm_num]
        rw [← Nat.cast_add, Nat.cast_le]
        omega
      unfold shouldLockAgain
      rw [if_neg (by simp)]
      dsimp only
      exact decide_eq_decide.mpr harith
    by_cases hc : (k + 1) % 15 = 0
    · have hdec : decide ((k + 1) % 15 = 0) = true := by simp [hc]
      constructor
      · rw [hstep, prev.1]
        simp only [scheduleTick, if_neg hne, hsel (k + 1) hk]
        rw [hcond, hdec, if_pos rfl]
        have h15 : 15 * ((k + 1) / 15) = k + 1 := by omega
        rw [h15]
      · show (scheduleTick sched today (mins (k + 1)) (t0 + ((k + 1 : ℕ) : ℚ))
            (memBefore sched today mins t0 ⟨none, none⟩ (k + 1))).locked = _
        rw [prev.1]
        simp only [scheduleTick, if_neg hne, hsel (k + 1) hk]
        rw [hcond, hdec, if_pos rfl]
    · have hdec : decide ((k + 1) % 15 = 0) = false := by simp [hc]
      constructor
      · rw [hstep, prev.1]
        simp only [scheduleTick, if_neg hne, hsel (k + 1) hk]
        rw [hcond, hdec, if_neg Bool.false_ne_true]
        have h15 : 15 * ((k + 1) / 15) = 15 * (k / 15) := by omega
        rw [h15]
      · show (scheduleTick sched today (mins (k + 1)) (t0 + ((k + 1 : ℕ) : ℚ))
            (memBefore sched today mins t0 ⟨none, none⟩ (k + 1))).locked = _
        rw [prev.1]
        simp only [scheduleTick, if_neg hne, hsel (k + 1) hk]
        rw [hcond, hdec, if_neg Bool.false_ne_true]

/-- C2: `_should_lock_again` fires iff the marker differs, no timestamp is
remembered, or 15 seconds have passed; starting from a cleared memory, a
once-per-second run of ticks inside one window locks exactly at the seconds
divisible by 15 (first tick, then nothing for 14 ticks, then again); a tick
that selects an entry whose marker differs from the remembered one locks
immediately; after a locking tick the memory holds `(marker, now)`, and a
tick with no selected entry clears the memory. -/
theorem claim_C2_lock_guard_behavior :
    (∀ (mem : LockMemory) (marker : String × String × String) (now : ℚ),
      shouldLockAgain mem marker now = true ↔
        (mem.lastLock ≠ some marker ∨ mem.lastLockTs = none ∨
          ∃ ts, mem.lastLockTs = some ts ∧ 15 ≤ now - ts)) ∧
    (∀ (sched : List ScheduleEntry) (today : String) (mins : Nat → Nat) (t0 : ℚ)
        (i : Nat) (e : ScheduleEntry) (n : Nat),
      sched ≠ [] →
      (∀ k, k ≤ n → scheduleSelect (mins k) sched = some (i, e)) →
      ∀ k, k ≤ n →
        lockedAt sched today mins t0 ⟨none, none⟩ k = decide (k % 15 = 0)) ∧
    (∀ (sched : List ScheduleEntry) (today : String) (minutes : Nat) (now : ℚ)
        (mem : LockMemory) (i : Nat) (e : ScheduleEntry),
      sched ≠ [] → scheduleSelect minutes sched = some (i, e) →
      mem.lastLock ≠ some (today, e.start, e.endT) →
      (scheduleTick sched today minutes now mem).locked = true) ∧
    (∀ (sched : List ScheduleEntry) (today : String) (minutes : Nat) (now : ℚ)
        (mem : LockMemory) (i : Nat) (e : ScheduleEntry),
      sched ≠ [] → scheduleSelect minutes sched = some (i, e) →
      (scheduleTick sched today minutes now mem).locked = true →
      (scheduleTick sched today minutes now mem).mem =
        ⟨some (today, e.start, e.endT), some now⟩) ∧
    (∀ (sched : List ScheduleEntry) (today : String) (minutes : Nat) (now : ℚ)
        (mem : LockMemory),
      sched ≠ [] → scheduleSelect minutes sched = none →
      (scheduleTick sched today minutes now mem).mem = ⟨none, none⟩ ∧
      (scheduleTick sched today minutes now mem).locked = false) := by
  refine ⟨shouldLockAgain_iff, ?_, ?_, ?_, ?_⟩
  · intro sched today mins t0 i e n hne hsel k hk
    exact (lockRun sched today mins t0 i e hne n hsel k hk).2
  · intro sched today minutes now mem i e hne hsel hmark
    simp only [scheduleTick, if_neg hne, hsel]
    rw [shouldLockAgain, if_pos hmark]
    simp
  · intro sched today minutes now mem i e hne hsel
    simp only [scheduleTick, if_neg hne, hsel]
    by_cases hlock : shouldLockAgain mem (today, e.start, e.endT) now = true
    · simp [hlock]
    · simp [hlock]
  · intro sched today minutes now mem hne hsel
    simp only [scheduleTick, if_neg hne, hsel]
    exact ⟨trivial, trivial⟩

/-- C2 witness: one 09:30-09:45 window observed at minute 575 once per second
from a cleared memory locks at seconds 0 and 15 and not at 1 or 14; a tick
remembering a different marker locks immediately and rewrites the memory; a
tick with no matching entry clears it. -/
theorem claim_C2_witness :
    lockedAt [⟨"09:30", "09:45", "B"⟩] "2024-01-01" (fun _ => 575) 0 ⟨none, none⟩ 0 = true ∧
    lockedAt [⟨"09:30", "09:45", "B"⟩] "2024-01-01" (fun _ => 575) 0 ⟨none, none⟩ 1 = false ∧
    lockedAt [⟨"09:30", "09:45", "B"⟩] "2024-01-01" (fun _ => 575) 0 ⟨none, none⟩ 14 = false ∧
    lockedAt [⟨"09:30", "09:45", "B"⟩] "2024-01-01" (fun _ => 575) 0 ⟨none, none⟩ 15 = true ∧
    (scheduleTick [⟨"09:30", "09:45", "B"⟩] "2024-01-01" 575 3
        ⟨some ("2024-01-01", "08:00", "08:15"), some 0⟩).locked = true ∧
    (scheduleTick [⟨"09:30", "09:45", "B"⟩] "2024-01-01" 575 3
        ⟨some ("2024-01-01", "08:00", "08:15"), some 0⟩).mem =
      ⟨some ("2024-01-01", "09:30", "09:45"), some 3⟩ ∧
    (scheduleTick [⟨"09:30", "09:45", "B"⟩] "2024-01-01" 100 3 ⟨none, none⟩).mem =
      ⟨none, none⟩ := by
  have hrun := claim_C2_lock_guard_behavior.2.1 [⟨"09:30", "09:45", "B"⟩] "2024-01-01"
    (fun _ => 575) 0 0 ⟨"09:30", "09:45", "B"⟩ 16 (by simp)
    (fun k _ =>
      show scheduleSelect 575 [⟨"09:30", "09:45", "B"⟩] =
          some (0, ⟨"09:30", "09:45", "B"⟩) by decide)
  have hdiff := claim_C2_lock_guard_behavior.2.2.1 [⟨"09:30", "09:45", "B"⟩] "2024-01-01"
    575 3 ⟨some ("2024-01-01", "08:00", "08:15"), some 0⟩ 0 ⟨"09:30", "09:45", "B"⟩
    (by simp) (by decide) (by simp)
  have hupd := claim_C2_lock_guard_behavior.2.2.2.1 [⟨"09:30", "09:45", "B"⟩] "2024-01-01"
    575 3 ⟨some ("2024-01-01", "08:00", "08:15"), some 0⟩ 0 ⟨"09:30", "09:45", "B"⟩
    (by simp) (by decide) hdiff
  have hclear := claim_C2_lock_guard_behavior.2.2.2.2 [⟨"09:30", "09:45", "B"⟩] "2024-01-01"
    100 3 ⟨none, none⟩ (by simp) (by decide)
  refine ⟨(hrun 0 (by omega)).trans (by decide), (hrun 1 (by omega)).trans (by decide),
    (hrun 14 (by omega)).trans (by decide), (hrun 15 (by omega)).trans (by decide),
    hdiff, hupd, hclear.1⟩

/-- A record survives the inner loop of `load_history` exactly when it is a
dict with string `timestamp` and `event`, `title` defaulting to `""`. -/
lemma parseItems_mem (raws : List JVal) (r : HRecord) :
    r ∈ parseItems raws ↔
      ∃ item ∈ raws, ∃ fs, item = JVal.obj fs ∧
        List.lookup "timestamp" fs = some (.str r.timestamp) ∧
        List.lookup "event" fs = some (.str r.event) ∧
        r.title = (List.lookup "title" fs).getD (.str "") := by
  obtain ⟨ts, ev, ti⟩ := r
  unfold parseItems
  rw [List.mem_filterMap]
  constructor
  · rintro ⟨item, hmem, hsome⟩
    refine ⟨item, hmem, ?_⟩
    split at hsome
    · split at hsome
      · simp only [Option.some.injEq] at hsome
        cases hsome
        next fs _ _ h1 h2 => exact ⟨fs, rfl, h1, h2, rfl⟩
      · exact absurd hsome (by simp)
    · exact absurd hsome (by simp)
  · rintro ⟨item, hmem, fs, rfl, h1, h2, h3⟩
    refine ⟨JVal.obj fs, hmem, ?_⟩
    simp only [h1, h2]
    simp only at h3
    rw [h3]

/-- A day key survives `load_history` exactly when its value is a list with a
non-empty set of well-formed records. -/
lemma specHistory_mem (flds : List (String × JVal)) (k : String)
    (recs : List HRecord) :
    (k, recs) ∈ specHistory flds ↔
      recs ≠ [] ∧ ∃ raws, (k, JVal.arr raws) ∈ flds ∧ recs = parseItems raws := by
  unfold specHistory
  rw [List.mem_filterMap]
  constructor
  · rintro ⟨⟨k2, v⟩, hmem, hsome⟩
    split at hsome
    · rename_i raws heq
      replace heq : v = JVal.arr raws := heq
      subst heq
      by_cases hp : (parseItems raws).isEmpty
      · rw [if_pos hp] at hsome
        cases hsome
      · rw [if_neg hp] at hsome
        simp only [Option.some.injEq, Prod.mk.injEq] at hsome
        obtain ⟨rfl, rfl⟩ := hsome
        exact ⟨by simpa using hp, raws, hmem, rfl⟩
    · cases hsome
  · rintro ⟨hne, raws, hmem, rfl⟩
    refine ⟨(k, JVal.arr raws), hmem, ?_⟩
    dsimp only
    rw [if_neg (by simpa using hne)]

/-- C9 (amended): a missing, unreadable or non-JSON history file loads as the
empty history; a JSON object loads without raising, keeping per date key
exactly the non-empty lists of well-formed records (dicts with string
`timestamp` and `event`; other records are skipped); but top-level JSON that
is not an object raises (`AttributeError` at `raw.items()`). -/
theorem claim_C9_history_load_containment :
    (loadHistory .missing = .ok [] ∧ loadHistory .ioError = .ok [] ∧
      loadHistory .badJson = .ok []) ∧
    (∀ flds, loadHistory (.json (.obj flds)) = .ok (specHistory flds)) ∧
    (∀ flds k recs, (k, recs) ∈ specHistory flds ↔
      recs ≠ [] ∧ ∃ raws, (k, JVal.arr raws) ∈ flds ∧ recs = parseItems raws) ∧
    (∀ raws r, r ∈ parseItems raws ↔
      ∃ item ∈ raws, ∃ fs, item = JVal.obj fs ∧
        List.lookup "timestamp" fs = some (.str r.timestamp) ∧
        List.lookup "event" fs = some (.str r.event) ∧
        r.title = (List.lookup "title" fs).getD (.str "")) :=
  ⟨⟨rfl, rfl, rfl⟩, fun _ => rfl, specHistory_mem, parseItems_mem⟩

/-- C9 (counterexample): a history file containing the JSON document `[]` (a
list, not an object) makes `load_history` raise instead of returning an empty
history. -/
theorem claim_C9_counterexample :
    loadHistory (.json (.arr [])) = .error () ∧
    loadHistory (.json (.str "oops")) = .error () := ⟨rfl, rfl⟩

/-- C9 witness. -/
theorem claim_C9_witness :
    loadHistory (.json (.obj
        [("2024-01-01", .arr [.obj [("timestamp", .str "T"), ("event", .str "start")], .int 7]),
         ("bad", .str "x")])) =
      .ok (specHistory
        [("2024-01-01", .arr [.obj [("timestamp", .str "T"), ("event", .str "start")], .int 7]),
         ("bad", .str "x")]) ∧
    (⟨"T", "start", .str ""⟩ : HRecord) ∈
      parseItems [.obj [("timestamp", .str "T"), ("event", .str "start")], .int 7] := by
  constructor
  · exact claim_C9_history_load_containment.2.1
      [("2024-01-01", .arr [.obj [("timestamp", .str "T"), ("event", .str "start")], .int 7]),
       ("bad", .str "x")]
  · exact (claim_C9_history_load_containment.2.2.2
      [.obj [("timestamp", .str "T"), ("event", .str "start")], .int 7]
      ⟨"T", "start", .str ""⟩).mpr
      ⟨.obj [("timestamp", .str "T"), ("event", .str "start")], by simp,
       [("timestamp", .str "T"), ("event", .str "start")], rfl, rfl, rfl, rfl⟩

/-- Characters with equal code points are equal. -/
lemma char_toNat_inj {a b : Char} (h : a.toNat = b.toNat) : a = b := by
  have h2 := congrArg Char.ofNat h
  rwa [Char.ofNat_toNat, Char.ofNat_toNat] at h2

/-- Lexicographic order: irreflexivity. -/
lemma listLt_irrefl : ∀ l, listLt l l = false := by
  intro l
  induction l with
  | nil => rfl
  | cons c rest ih =>
    rw [listLt, if_neg (by omega), if_neg (by omega)]
    exact ih

/-- Lexicographic order: asymmetry. -/
lemma listLt_asymm : ∀ a b, listLt a b = true → listLt b a = false := by
  intro a
  induction a with
  | nil =>
    intro b h
    cases b with
    | nil => simp [listLt] at h
    | cons d ds => rfl
  | cons c cs ih =>
    intro b h
    cases b with
    | nil => simp [listLt] at h
    | cons d ds =>
      rw [listLt] at h
      by_cases h1 : c.toNat < d.toNat
      · rw [listLt, if_neg (by omega), if_pos h1]
      · rw [if_neg h1] at h
        by_cases h2 : d.toNat < c.toNat
        · rw [if_pos h2] at h
          cases h
        · rw [if_neg h2] at h
          rw [listLt, if_neg h2, if_neg h1]
          exact ih ds h

/-- Lexicographic order: transitivity. -/
lemma listLt_trans : ∀ a b c, listLt a b = true → listLt b c = true →
    listLt a c = true := by
  intro a
  induction a with
  | nil =>
    intro b c hab hbc
    cases b with
    | nil => simp [listLt] at hab
    | cons y ys =>
      cases c with
      | nil => simp [listLt] at hbc
      | cons z zs => rfl
  | cons x xs ih =>
    intro b c hab hbc
    cases b with
    | nil => simp [listLt] at hab
    | cons y ys =>
      cases c with
      | nil => simp [listLt] at hbc
      | cons z zs =>
        rw [listLt] at hab hbc
        rw [listLt]
        by_cases h1 : x.toNat < y.toNat
        · by_cases h2 : y.toNat < z.toNat
          · rw [if_pos (by omega)]
          · rw [if_neg h2] at hbc
            by_cases h3 : z.toNat < y.toNat
            · rw [if_pos h3] at hbc
              cases hbc
            · rw [if_neg h3] at hbc
              rw [if_pos (by omega)]
        · rw [if_neg h1] at hab
          by_cases h4 : y.toNat < x.toNat
          · rw [if_pos h4] at hab
            cases hab
          · rw [if_neg h4] at hab
            by_cases h2 : y.toNat < z.toNat
            · rw [if_pos (by omega)]
            · rw [if_neg h2] at hbc
              by_cases h3 : z.toNat < y.toNat
              · rw [if_pos h3] at hbc
                cases hbc
              · rw [if_neg h3] at hbc
                rw [if_neg (by omega), if_neg (by omega)]
                exact ih ys zs hab hbc

/-- Lexicographic order: two lists neither of which precedes the other are
equal. -/
lemma listLt_eq_of_not : ∀ a b, listLt a b = false → listLt b a = false →
    a = b := by
  intro a
  induction a with
  | nil =>
    intro b h1 _
    cases b with
    | nil => rfl
    | cons d ds => simp [listLt] at h1
  | cons x xs ih =>
    intro b h1 h2
    cases b with
    | nil => simp [listLt] at h2
    | cons y ys =>
      by_cases hxy : x.toNat < y.toNat
      · rw [listLt, if_pos hxy] at h1
        cases h1
      · by_cases hyx : y.toNat < x.toNat
        · rw [listLt, if_pos hyx] at h2
          cases h2
        · have hx : x = y := char_toNat_inj (by omega)
          subst hx
          rw [listLt, if_neg hxy, if_neg hyx] at h1
          rw [listLt, if_neg hyx, if_neg hxy] at h2
          rw [ih ys h1 h2]

/-- `a <= b` holds when `b <= a` fails. -/
lemma pyStrLe_of_not_le {a b : String} (h : ¬pyStrLe a b = true) :
    pyStrLe b a = true := by
  unfold pyStrLe pyStrLt at h ⊢
  cases hb : listLt b.toList a.toList with
  | false => exact absurd (by rw [hb]; rfl) h
  | true =>
    rw [listLt_asymm _ _ hb]
    rfl

/-- String `<=` is transitive. -/
lemma pyStrLe_trans {a b c : String} (h1 : pyStrLe a b = true)
    (h2 : pyStrLe b c = true) : pyStrLe a c = true := by
  unfold pyStrLe pyStrLt at h1 h2 ⊢
  simp only [Bool.not_eq_true'] at h1 h2 ⊢
  by_cases hca : listLt c.toList a.toList = true
  · by_cases hab : listLt a.toList b.toList = true
    · have := listLt_trans _ _ _ hca hab
      rw [this] at h2
      cases h2
    · rw [Bool.not_eq_true] at hab
      have hEq := listLt_eq_of_not _ _ hab h1
      rw [show a.toList = b.toList from hEq] at hca
      rw [hca] at h2
      cases h2
  · rwa [Bool.not_eq_true] at hca

/-- Inserting into the stable sort is a permutation of consing. -/
lemma insertByStart_perm (e : ScheduleEntry) :
    ∀ l, (insertByStart e l).Perm (e :: l) := by
  intro l
  induction l with
  | nil => exact List.Perm.refl _
  | cons x xs ih =>
    rw [insertByStart]
    split_ifs with h
    · exact (ih.cons x).trans (List.Perm.swap e x xs)
    · exact List.Perm.refl _

/-- Inserting into a list sorted by `start` keeps it sorted. -/
lemma insertByStart_sorted (e : ScheduleEntry) :
    ∀ l, l.Pairwise (fun a b => pyStrLe a.start b.start = true) →
      (insertByStart e l).Pairwise (fun a b => pyStrLe a.start b.start = true) := by
  intro l
  induction l with
  | nil =>
    intro _
    simp [insertByStart]
  | cons x xs ih =>
    intro hp
    rw [List.pairwise_cons] at hp
    obtain ⟨hx, hxs⟩ := hp
    rw [insertByStart]
    split_ifs with h
    · rw [List.pairwise_cons]
      refine ⟨?_, ih hxs⟩
      intro b hb
      rcases List.mem_cons.1 ((insertByStart_perm e xs).mem_iff.1 hb) with rfl | hbxs
      · exact h
      · exact hx b hbxs
    · rw [List.pairwise_cons]
      refine ⟨?_, by rw [List.pairwise_cons]; exact ⟨hx, hxs⟩⟩
      intro b hb
      rcases List.mem_cons.1 hb with rfl | hbxs
      · exact pyStrLe_of_not_le h
      · exact pyStrLe_trans (pyStrLe_of_not_le h) (hx b hbxs)

/-- The sort fold permutes its input. -/
lemma sortFold_perm : ∀ (l acc : List ScheduleEntry),
    (l.foldl (fun a e => insertByStart e a) acc).Perm (acc ++ l) := by
  intro l
  induction l with
  | nil => intro acc; simp
  | cons x xs ih =>
    intro acc
    rw [List.foldl_cons]
    refine (ih (insertByStart x acc)).trans ?_
    refine ((insertByStart_perm x acc).append_right xs).trans ?_
    simpa using List.perm_middle.symm

/-- The sort fold sorts. -/
lemma sortFold_sorted : ∀ (l acc : List ScheduleEntry),
    acc.Pairwise (fun a b => pyStrLe a.start b.start = true) →
    (l.foldl (fun a e => insertByStart e a) acc).Pairwise
      (fun a b => pyStrLe a.start b.start = true) := by
  intro l
  induction l with
  | nil => intro acc h; simpa using h
  | cons x xs ih =>
    intro acc h
    rw [List.foldl_cons]
    exact ih _ (insertByStart_sorted x acc h)

/-- `sortByStart` permutes its input. -/
lemma sortByStart_perm (l : List ScheduleEntry) : (sortByStart l).Perm l := by
  simpa [sortByStart] using sortFold_perm l []

/-- `sortByStart` sorts by `start`. -/
lemma sortByStart_sorted (l : List ScheduleEntry) :
    (sortByStart l).Pairwise (fun a b => pyStrLe a.start b.start = true) :=
  sortFold_sorted l [] List.Pairwise.nil

/-- On a tame time field, `_normalize_time` does not raise and agrees with
the claim-side reading. -/
lemma normalizeTimeJ_tame (v : JVal) (h : TimeFieldTame v) :
    normalizeTimeJ v = .ok (specTime v) := by
  rcases h with hf | ⟨s, rfl⟩
  · unfold normalizeTimeJ
    rw [if_pos (by simp [hf])]
    cases v with
    | str s =>
      have hs : s = "" := by simpa [truthy] using hf
      subst hs
      rfl
    | null => rfl
    | bool b => rfl
    | int n => rfl
    | float q => rfl
    | arr xs => rfl
    | obj fs => rfl
  · unfold normalizeTimeJ specTime
    by_cases hs : s = ""
    · subst hs
      rw [if_pos (by simp [truthy])]
      rfl
    · rw [if_neg (by simp [truthy, hs])]
      simp [hs]

/-- On a tame item, one loop body of `ensure_schedule` does not raise and
keeps exactly what the claim-side sanitizer keeps. -/
lemma sanitizeItem_tame (item : JVal) (h : ItemTame item) :
    sanitizeItem item = .ok (specKeep item) := by
  cases item with
  | obj fs =>
    obtain ⟨hs, he⟩ := h fs rfl
    unfold sanitizeItem specKeep
    dsimp only
    rw [normalizeTimeJ_tame _ hs, normalizeTimeJ_tame _ he]
    cases hst : specTime ((List.lookup "start" fs).getD .null) with
    | none =>
      cases hen : specTime ((List.lookup "end" fs).getD .null) <;> rfl
    | some st =>
      cases hen : specTime ((List.lookup "end" fs).getD .null) with
      | none => rfl
      | some en =>
        dsimp only
        by_cases heq : st = en
        · rw [if_pos heq, if_neg (by rw [heq, show pyStrLt en en = false from listLt_irrefl _]; simp)]
        · rw [if_neg heq]
          by_cases hlt : pyStrLt st en = true
          · rw [if_neg (by rw [hlt]; simp), if_pos hlt]
          · rw [if_pos (by rw [Bool.not_eq_true] at hlt; rw [hlt]; rfl), if_neg hlt]
  | null => rfl
  | bool b => rfl
  | int n => rfl
  | float q => rfl
  | str s => rfl
  | arr xs => rfl

/-- On tame items, the `ensure_schedule` loop collects exactly the claim-side
keeps, in order. -/
lemma scheduleLoop_tame : ∀ (xs : List JVal) (acc : List ScheduleEntry),
    (∀ item ∈ xs, ItemTame item) →
    scheduleLoop xs acc = .ok (acc ++ xs.filterMap specKeep) := by
  intro xs
  induction xs with
  | nil =>
    intro acc _
    simp [scheduleLoop]
  | cons x rest ih =>
    intro acc h
    rw [scheduleLoop, sanitizeItem_tame x (h x (by simp))]
    cases hk : specKeep x with
    | some e =>
      dsimp only
      rw [ih (acc ++ [e]) (fun i hi => h i (by simp [hi]))]
      simp [List.filterMap_cons, hk]
    | none =>
      dsimp only
      rw [ih acc (fun i hi => h i (by simp [hi]))]
      simp [List.filterMap_cons, hk]

/-- C7 (amended): for input lists whose schedule items' start/end fields are
strings or falsy values, sanitization never raises; it silently drops every
item that is not a dict, lacks a parseable `HH:MM` start or end, or fails
`start < end`, and returns exactly the kept, normalized entries reordered so
they are sorted by start time. -/
theorem claim_C7_sanitize_drops_and_sorts :
    ∀ xs : List JVal, (∀ item ∈ xs, ItemTame item) →
      ∃ l, ensureSchedule (.arr xs) = .ok l ∧
        l.Perm (xs.filterMap specKeep) ∧
        l.Pairwise (fun a b => pyStrLe a.start b.start = true) := by
  intro xs h
  refine ⟨sortByStart (xs.filterMap specKeep), ?_, sortByStart_perm _, sortByStart_sorted _⟩
  unfold ensureSchedule
  dsimp only
  rw [scheduleLoop_tame xs [] h]
  simp

/-- C7 (counterexample): an entry whose `start` is the JSON number `1` is not
silently dropped — `ensure_schedule` raises (`AttributeError` at
`value.strip()` inside `_normalize_time`). -/
theorem claim_C7_counterexample :
    ensureSchedule (.arr [.obj [("start", .int 1), ("end", .str "10:00")]]) =
      .error () := rfl

/-- C7 witness. -/
theorem claim_C7_witness :
    ∃ l, ensureSchedule (.arr
        [.obj [("start", .str "12:00"), ("end", .str "13:00")],
         .obj [("start", .str "9:00"), ("end", .str "10:00")],
         .str "junk",
         .obj [("start", .str "11:00"), ("end", .str "10:30")]]) = .ok l ∧
      l.Perm (List.filterMap specKeep
        [.obj [("start", .str "12:00"), ("end", .str "13:00")],
         .obj [("start", .str "9:00"), ("end", .str "10:00")],
         .str "junk",
         .obj [("start", .str "11:00"), ("end", .str "10:30")]]) ∧
      l.Pairwise (fun a b => pyStrLe a.start b.start = true) := by
  apply claim_C7_sanitize_drops_and_sorts
  intro item hi
  simp only [List.mem_cons, List.not_mem_nil, or_false] at hi
  rcases hi with rfl | rfl | rfl | rfl
  · intro fs hfs
    injection hfs with h2
    subst h2
    exact ⟨Or.inr ⟨_, rfl⟩, Or.inr ⟨_, rfl⟩⟩
  · intro fs hfs
    injection hfs with h2
    subst h2
    exact ⟨Or.inr ⟨_, rfl⟩, Or.inr ⟨_, rfl⟩⟩
  · intro fs hfs
    exact absurd hfs (by simp)
  · intro fs hfs
    injection hfs with h2
    subst h2
    exact ⟨Or.inr ⟨_, rfl⟩, Or.inr ⟨_, rfl⟩⟩

/-- The head of a `dropWhile` result fails the predicate. -/
lemma dropWhile_head_false {p : Char → Bool} {l : List Char} {c : Char}
    {cs : List Char} (h : l.dropWhile p = c :: cs) : p c = false := by
  have h2 := List.head?_dropWhile_not p l
  rw [h] at h2
  simpa using h2

/-- `dropWhile` is idempotent. -/
lemma dropWhile_idem (p : Char → Bool) (l : List Char) :
    (l.dropWhile p).dropWhile p = l.dropWhile p := by
  cases h : l.dropWhile p with
  | nil => rfl
  | cons c cs =>
    exact List.dropWhile_cons_of_neg (by simp [dropWhile_head_false h])

/-- Stripping is idempotent (list level). -/
lemma stripList_idem (l : List Char) :
    ((((((l.dropWhile isPySpace).reverse.dropWhile isPySpace).reverse).dropWhile
        isPySpace).reverse).dropWhile isPySpace).reverse =
      ((l.dropWhile isPySpace).reverse.dropWhile isPySpace).reverse := by
  set A := l.dropWhile isPySpace with hA
  set B := (A.reverse.dropWhile isPySpace).reverse with hB
  have hBr : B.reverse = A.reverse.dropWhile isPySpace := by
    rw [hB, List.reverse_reverse]
  have h1 : B.dropWhile isPySpace = B := by
    cases hBc : B with
    | nil => rfl
    | cons c cs =>
      obtain ⟨tl, htl⟩ := List.dropWhile_suffix (l := A.reverse) isPySpace
      have hA2 : A = B ++ tl.reverse := by
        have h3 := congrArg List.reverse htl
        rw [List.reverse_append, ← hBr, List.reverse_reverse, List.reverse_reverse] at h3
        exact h3.symm
      have hAeq : List.dropWhile isPySpace l = c :: (cs ++ tl.reverse) := by
        rw [← hA, hA2, hBc]
        rfl
      have hhead : isPySpace c = false := dropWhile_head_false hAeq
      exact List.dropWhile_cons_of_neg (by simp [hhead])
  have h2 : B.reverse.dropWhile isPySpace = B.reverse := by
    rw [hBr]
    exact dropWhile_idem _ _
  rw [h1, h2, List.reverse_reverse]

/-- `str.strip()` is idempotent. -/
lemma pyStrip_idem (s : String) : pyStrip (pyStrip s) = pyStrip s := by
  unfold pyStrip
  exact congrArg String.mk (stripList_idem s.toList)

/-- `pyOr (pyStrip x) d` is stripped and non-empty when `d` is. -/
lemma pyOr_strip_norm (x d : String) (hd1 : pyStrip d = d) (hd2 : d ≠ "") :
    pyStrip (pyOr (pyStrip x) d) = pyOr (pyStrip x) d ∧ pyOr (pyStrip x) d ≠ "" := by
  unfold pyOr
  split_ifs with h
  · exact ⟨hd1, hd2⟩
  · exact ⟨pyStrip_idem x, h⟩

/-- Lowercasing does not create or destroy whitespace. -/
lemma isPySpace_asciiLower (c : Char) : isPySpace (asciiLower c) = isPySpace c := by
  unfold asciiLower
  split <;> rfl

/-- The lowering table never outputs an uppercase letter. -/
lemma asciiLower_not_upper (c : Char) :
    ¬(65 ≤ (asciiLower c).toNat ∧ (asciiLower c).toNat ≤ 90) := by
  unfold asciiLower
  split <;> first
    | decide
    | (rename_i hA hB hC hD hE hF hG hH hI hJ hK hL hM hN hO hP hQ hR hS hT hU hV hW hX hY hZ
       rintro ⟨h1, h2⟩
       have hv : c.toNat = 65 ∨ c.toNat = 66 ∨ c.toNat = 67 ∨ c.toNat = 68 ∨ c.toNat = 69 ∨
           c.toNat = 70 ∨ c.toNat = 71 ∨ c.toNat = 72 ∨ c.toNat = 73 ∨ c.toNat = 74 ∨
           c.toNat = 75 ∨ c.toNat = 76 ∨ c.toNat = 77 ∨ c.toNat = 78 ∨ c.toNat = 79 ∨
           c.toNat = 80 ∨ c.toNat = 81 ∨ c.toNat = 82 ∨ c.toNat = 83 ∨ c.toNat = 84 ∨
           c.toNat = 85 ∨ c.toNat = 86 ∨ c.toNat = 87 ∨ c.toNat = 88 ∨ c.toNat = 89 ∨
           c.toNat = 90 := by omega
       rcases hv with hv|hv|hv|hv|hv|hv|hv|hv|hv|hv|hv|hv|hv|hv|hv|hv|hv|hv|hv|hv|hv|hv|hv|hv|hv|hv
       · exact hA (char_toNat_inj (hv.trans (by decide)))
       · exact hB (char_toNat_inj (hv.trans (by decide)))
       · exact hC (char_toNat_inj (hv.trans (by decide)))
       · exact hD (char_toNat_inj (hv.trans (by decide)))
       · exact hE (char_toNat_inj (hv.trans (by decide)))
       · exact hF (char_toNat_inj (hv.trans (by decide)))
       · exact hG (char_toNat_inj (hv.trans (by decide)))
       · exact hH (char_toNat_inj (hv.trans (by decide)))
       · exact hI (char_toNat_inj (hv.trans (by decide)))
       · exact hJ (char_toNat_inj (hv.trans (by decide)))
       · exact hK (char_toNat_inj (hv.trans (by decide)))
       · exact hL (char_toNat_inj (hv.trans (by decide)))
       · exact hM (char_toNat_inj (hv.trans (by decide)))
       · exact hN (char_toNat_inj (hv.trans (by decide)))
       · exact hO (char_toNat_inj (hv.trans (by decide)))
       · exact hP (char_toNat_inj (hv.trans (by decide)))
       · exact hQ (char_toNat_inj (hv.trans (by decide)))
       · exact hR (char_toNat_inj (hv.trans (by decide)))
       · exact hS (char_toNat_inj (hv.trans (by decide)))
       · exact hT (char_toNat_inj (hv.trans (by decide)))
       · exact hU (char_toNat_inj (hv.trans (by decide)))
       · exact hV (char_toNat_inj (hv.trans (by decide)))
       · exact hW (char_toNat_inj (hv.trans (by decide)))
       · exact hX (char_toNat_inj (hv.trans (by decide)))
       · exact hY (char_toNat_inj (hv.trans (by decide)))
       · exact hZ (char_toNat_inj (hv.trans (by decide))))

/-- A character that is not an uppercase letter is fixed by the lowering table. -/
lemma asciiLower_of_not_upper {c : Char}
    (hc : ¬(65 ≤ c.toNat ∧ c.toNat ≤ 90)) : asciiLower c = c := by
  unfold asciiLower
  split <;> first
    | rfl
    | (exact absurd (by decide) hc)

/-- Lowercasing is idempotent per character. -/
lemma asciiLower_idem (c : Char) : asciiLower (asciiLower c) = asciiLower c :=
  asciiLower_of_not_upper (asciiLower_not_upper c)

/-- A hexadecimal digit stays hexadecimal after lowercasing. -/
lemma isHexDigitChar_asciiLower {c : Char} (h : isHexDigitChar c = true) :
    isHexDigitChar (asciiLower c) = true := by
  unfold asciiLower
  split <;> first | rfl | exact h

/-- Only `_` lowercases to `_`. -/
lemma asciiLower_underscore {c : Char} (h : asciiLower c = '_') : c = '_' := by
  unfold asciiLower at h
  split at h <;> simp_all

/-- Only the sign characters lowercase to sign characters. -/
lemma asciiLower_sign {c : Char} (h : asciiLower c = '+' ∨ asciiLower c = '-') :
    c = '+' ∨ c = '-' := by
  unfold asciiLower at h
  split at h <;> simp_all

/-- Only `0` lowercases to `0`. -/
lemma asciiLower_zero {c : Char} (h : asciiLower c = '0') : c = '0' := by
  unfold asciiLower at h
  split at h <;> simp_all

/-- A hexadecimal digit never lowercases to `x`. -/
lemma asciiLower_ne_x {c : Char} (h : isHexDigitChar c = true) :
    ¬(asciiLower c = 'x' ∨ asciiLower c = 'X') := by
  unfold asciiLower
  split <;> first
    | (exact absurd h (by decide))
    | decide
    | (rintro (rfl | rfl) <;> exact absurd h (by decide))

/-- Unfolding equation for `runTail` on a cons cell. -/
lemma runTail_cons (isD : Char → Bool) (c : Char) (rest : List Char) :
    runTail isD (c :: rest) =
      if c = '_' then
        (match rest with
        | [] => false
        | d :: rest2 => isD d && runTail isD rest2)
      else isD c && runTail isD rest := by
  cases rest <;> rfl

/-- Unfolding equation for `hexBody` on a cons cell. -/
lemma hexBody_cons (c : Char) (rest : List Char) :
    hexBody (c :: rest) =
      if c = '_' then
        (match rest with
        | [] => false
        | d :: rest2 => isHexDigitChar d && runTail isHexDigitChar rest2)
      else isHexDigitChar c && runTail isHexDigitChar rest := by
  cases rest <;> rfl

/-- Lowercasing preserves `runTail` acceptance. -/
lemma runTail_map_lower (isF : Char → Bool)
    (hpres : ∀ c, isF c = true → isF (asciiLower c) = true) :
    ∀ n (l : List Char), l.length ≤ n → runTail isF l = true →
      runTail isF (l.map asciiLower) = true := by
  intro n
  induction n with
  | zero =>
    intro l hl h
    cases l with
    | nil => exact h
    | cons c rest => simp at hl
  | succ n ihn =>
    intro l hl h
    cases l with
    | nil => exact h
    | cons c rest =>
      rw [runTail_cons] at h
      rw [List.map_cons, runTail_cons]
      by_cases hc : c = '_'
      · subst hc
        rw [if_pos rfl] at h
        rw [if_pos (by decide)]
        cases rest with
        | nil => exact h
        | cons d rest2 =>
          rw [List.map_cons]
          simp only [Bool.and_eq_true] at h ⊢
          exact ⟨hpres d h.1, ihn rest2 (by simp at hl; omega) h.2⟩
      · rw [if_neg hc] at h
        rw [if_neg (fun hlc => hc (asciiLower_underscore hlc))]
        simp only [Bool.and_eq_true] at h ⊢
        exact ⟨hpres c h.1, ihn rest (by simp at hl; omega) h.2⟩

/-- Lowercasing preserves `digitRun` acceptance for hexadecimal digits. -/
lemma digitRun_map_lower {l : List Char} (h : digitRun isHexDigitChar l = true) :
    digitRun isHexDigitChar (l.map asciiLower) = true := by
  cases l with
  | nil => exact h
  | cons c rest =>
    rw [digitRun] at h
    rw [List.map_cons, digitRun]
    simp only [Bool.and_eq_true] at h ⊢
    exact ⟨isHexDigitChar_asciiLower h.1,
      runTail_map_lower isHexDigitChar (fun c hc => isHexDigitChar_asciiLower hc)
        rest.length rest le_rfl h.2⟩

/-- Lowercasing preserves `hexBody` acceptance. -/
lemma hexBody_map_lower {l : List Char} (h : hexBody l = true) :
    hexBody (l.map asciiLower) = true := by
  cases l with
  | nil => exact h
  | cons c rest =>
    rw [hexBody_cons] at h
    rw [List.map_cons, hexBody_cons]
    by_cases hc : c = '_'
    · subst hc
      rw [if_pos rfl] at h
      rw [if_pos (by decide)]
      cases rest with
      | nil => exact h
      | cons d rest2 =>
        rw [List.map_cons]
        simp only [Bool.and_eq_true] at h ⊢
        exact ⟨isHexDigitChar_asciiLower h.1,
          runTail_map_lower isHexDigitChar (fun c hc => isHexDigitChar_asciiLower hc)
            rest2.length rest2 le_rfl h.2⟩
    · rw [if_neg hc] at h
      rw [if_neg (fun hlc => hc (asciiLower_underscore hlc))]
      simp only [Bool.and_eq_true] at h ⊢
      exact ⟨isHexDigitChar_asciiLower h.1,
        runTail_map_lower isHexDigitChar (fun c hc => isHexDigitChar_asciiLower hc)
          rest.length rest le_rfl h.2⟩

/-- Lowercasing preserves acceptance of the post-sign part. -/
lemma hexAfterSign_map_lower {l : List Char} (h : hexAfterSign l = true) :
    hexAfterSign (l.map asciiLower) = true := by
  cases l with
  | nil => exact h
  | cons c0 rest0 =>
    cases rest0 with
    | nil =>
      have h2 : digitRun isHexDigitChar [c0] = true := h
      exact digitRun_map_lower h2
    | cons c1 rest =>
      rw [hexAfterSign] at h
      rw [List.map_cons, List.map_cons, hexAfterSign]
      by_cases hpre : c0 = '0' ∧ (c1 = 'x' ∨ c1 = 'X')
      · rw [if_pos hpre] at h
        rw [if_pos (by obtain ⟨rfl, h2⟩ := hpre; rcases h2 with rfl | rfl <;> exact ⟨by decide, by decide⟩)]
        exact hexBody_map_lower h
      · rw [if_neg hpre] at h
        rw [if_neg ?_]
        · rw [show (asciiLower c0 :: asciiLower c1 :: rest.map asciiLower) =
              ((c0 :: c1 :: rest).map asciiLower) by simp]
          exact digitRun_map_lower h
        · intro hcon
          obtain ⟨h0, hx⟩ := hcon
          cases h0x : digitRun isHexDigitChar (c0 :: c1 :: rest) with
          | false =>
            rw [h0x] at h
            cases h
          | true =>
            rw [digitRun] at h0x
            simp only [Bool.and_eq_true] at h0x
            have hc1hex : isHexDigitChar c1 = true ∨ c1 = '_' := by
              have h1 := h0x.2
              rw [runTail_cons] at h1
              by_cases hu : c1 = '_'
              · exact Or.inr hu
              · rw [if_neg hu] at h1
                simp only [Bool.and_eq_true] at h1
                exact Or.inl h1.1
            rcases hc1hex with hhex | hund
            · exact asciiLower_ne_x hhex hx
            · subst hund
              rcases hx with hx | hx <;> exact absurd hx (by decide)

/-- `isPySpace` composed with lowering is `isPySpace`. -/
lemma isPySpace_comp_lower : (isPySpace ∘ asciiLower) = isPySpace := by
  funext c
  exact isPySpace_asciiLower c

/-- `strip` and `lower` commute. -/
lemma pyStrip_pyLower (s : String) : pyStrip (pyLower s) = pyLower (pyStrip s) := by
  unfold pyStrip pyLower
  refine congrArg String.mk ?_
  show (((((s.toList.map asciiLower).dropWhile isPySpace).reverse).dropWhile
      isPySpace).reverse) = _
  rw [List.dropWhile_map, isPySpace_comp_lower, ← List.map_reverse,
    List.dropWhile_map, isPySpace_comp_lower, ← List.map_reverse]
  rfl

/-- `lower` is idempotent on strings. -/
lemma pyLower_idem (s : String) : pyLower (pyLower s) = pyLower s := by
  unfold pyLower
  refine congrArg String.mk ?_
  show (s.toList.map asciiLower).map asciiLower = _
  rw [List.map_map]
  exact List.map_congr_left (fun c _ => asciiLower_idem c)

/-- Lowering commutes with the sign-dropping step. -/
lemma dropSign_map_lower (l : List Char) :
    dropSign (l.map asciiLower) = (dropSign l).map asciiLower := by
  cases l with
  | nil => rfl
  | cons c rest =>
    rw [List.map_cons, dropSign, dropSign]
    by_cases hc : c = '+' ∨ c = '-'
    · rw [if_pos hc, if_pos (by rcases hc with rfl | rfl; exacts [Or.inl rfl, Or.inr rfl])]
    · rw [if_neg hc, if_neg (fun hlc => hc (asciiLower_sign hlc)), List.map_cons]

/-- `int(s, 16)` still accepts after lowercasing. -/
lemma pyHex16Valid_lower {s : String} (h : pyHex16Valid s = true) :
    pyHex16Valid (pyLower s) = true := by
  unfold pyHex16Valid at h ⊢
  rw [pyStrip_pyLower]
  have htl : (pyLower (pyStrip s)).toList = (pyStrip s).toList.map asciiLower := rfl
  rw [htl, dropSign_map_lower]
  exact hexAfterSign_map_lower h

/-- What a true `is_valid_color` verdict gives: truthiness and the shape of the
stripped string. -/
lemma isValidColor_destruct {v : JVal} (h : isValidColor v = true) :
    truthy v = true ∧ ∃ rest, (pyStrip (pyStr v)).toList = '#' :: rest ∧
      rest.length = 6 ∧ pyHex16Valid ⟨rest⟩ = true := by
  unfold isValidColor at h
  by_cases ht : truthy v
  · refine ⟨ht, ?_⟩
    rw [if_neg (by simpa using ht)] at h
    split at h
    · rename_i rest hm
      simp only [Bool.and_eq_true, decide_eq_true_eq] at h
      exact ⟨rest, hm, h.1, h.2⟩
    · cases h
  · rw [if_pos (by simpa using ht)] at h
    cases h

/-- The string `ensure_color` emits in its accepting branch is normalized. -/
lemma colorNormal_lower_strip {v : JVal} (h : isValidColor v = true) :
    colorNormal (pyLower (pyStrip (pyStr v))) := by
  obtain ⟨ht, rest, hm, hlen, hhex⟩ := isValidColor_destruct h
  have hstrip : pyStrip (pyLower (pyStrip (pyStr v))) = pyLower (pyStrip (pyStr v)) := by
    rw [pyStrip_pyLower, pyStrip_idem]
  have hlow : pyLower (pyLower (pyStrip (pyStr v))) = pyLower (pyStrip (pyStr v)) :=
    pyLower_idem _
  have htl : (pyLower (pyStrip (pyStr v))).toList = '#' :: rest.map asciiLower := by
    show (pyStrip (pyStr v)).toList.map asciiLower = _
    rw [hm]
    rfl
  refine ⟨?_, hlow, hstrip⟩
  unfold isValidColor
  have hne : truthy (.str (pyLower (pyStrip (pyStr v)))) = true := by
    simp only [truthy, ne_eq, bne_iff_ne]
    intro hemp
    have : (pyLower (pyStrip (pyStr v))).toList = [] := by rw [hemp]; rfl
    rw [htl] at this
    cases this
  rw [if_neg (by simpa using hne)]
  have hps : pyStr (JVal.str (pyLower (pyStrip (pyStr v)))) = pyLower (pyStrip (pyStr v)) := rfl
  rw [hps, hstrip, htl]
  simp only [Bool.and_eq_true, decide_eq_true_eq]
  refine ⟨by rw [List.length_map, hlen], ?_⟩
  have : (⟨rest.map asciiLower⟩ : String) = pyLower ⟨rest⟩ := rfl
  rw [this]
  exact pyHex16Valid_lower hhex

/-- `ensure_color` output is normalized whenever the fallback is. -/
lemma ensureColor_normal (v : JVal) (d : String) (hd : colorNormal d) :
    colorNormal (ensureColor v d) := by
  unfold ensureColor
  split_ifs with h
  · simp only [Bool.and_eq_true] at h
    exact colorNormal_lower_strip h.2
  · exact hd

/-- Reloading a normalized color through `ensure_color` returns it unchanged. -/
lemma ensureColor_of_normal {o : String} (h : colorNormal o) (d : String) :
    ensureColor (.str o) d = o := by
  obtain ⟨hv, hl, hs⟩ := h
  have ht : truthy (.str o) = true := (isValidColor_destruct hv).1
  unfold ensureColor
  rw [ht, hv]
  show pyLower (pyStrip o) = o
  rw [hs, hl]

set_option maxHeartbeats 2000000 in
/-- Every normalized `"HH:MM"` string is non-empty, stripped, and a fixed
point of `_normalize_time`. -/
lemma hmFormat_norm : ∀ h, h < 24 → ∀ m, m < 60 →
    hmFormat h m ≠ "" ∧ pyStrip (hmFormat h m) = hmFormat h m ∧
    normCore (hmFormat h m) = some (hmFormat h m) := by decide

/-- A parsed digit is at most 9. -/
lemma digitVal_le {c : Char} {d : Nat} (h : digitVal c = some d) : d ≤ 9 := by
  unfold digitVal at h
  split_ifs at h with hc
  unfold isDigitChar at hc
  have h3 := of_decide_eq_true hc
  injection h with h2
  omega

/-- The minutes field parses below 60. -/
lemma parseMinutePart_lt {l : List Char} {m : Nat}
    (h : parseMinutePart l = some m) : m < 60 := by
  rw [parseMinutePart.eq_def] at h
  split at h
  · have := digitVal_le h
    omega
  · rename_i c1 c2
    cases hd1 : digitVal c1 with
    | none => simp [hd1] at h
    | some d1 =>
      cases hd2 : digitVal c2 with
      | none => simp [hd1, hd2] at h
      | some d2 =>
        simp [hd1, hd2] at h
        have h9 := digitVal_le hd2
        omega
  · cases h

/-- The hour parses below 24 and the minute below 60. -/
lemma parseHM_lt {l : List Char} {hh mm : Nat}
    (h : parseHM l = some (hh, mm)) : hh < 24 ∧ mm < 60 := by
  rw [parseHM.eq_def] at h
  split at h
  · rename_i c1 rest
    cases hd1 : digitVal c1 with
    | none => simp [hd1] at h
    | some d1 =>
      simp [hd1] at h
      cases hm1 : parseMinutePart rest with
      | none => simp [hm1] at h
      | some m1 =>
        simp [hm1] at h
        obtain ⟨h7, h8⟩ := h
        subst h7
        subst h8
        exact ⟨by have := digitVal_le hd1; omega, parseMinutePart_lt hm1⟩
  · rename_i c1 c2 rest hne2
    cases hd1 : digitVal c1 with
    | none => simp [hd1] at h
    | some d1 =>
      cases hd2 : digitVal c2 with
      | none => simp [hd1, hd2] at h
      | some d2 =>
        simp [hd1, hd2] at h
        obtain ⟨h5, h6⟩ := h
        cases hm1 : parseMinutePart rest with
        | none => simp [hm1] at h6
        | some m1 =>
          simp [hm1] at h6
          obtain ⟨h7, h8⟩ := h6
          subst h7
          subst h8
          exact ⟨by omega, parseMinutePart_lt hm1⟩
  · cases h

/-- What a successful `_normalize_time` emits is a normalized time. -/
lemma normCore_timeNormal {s t : String} (h : normCore s = some t) :
    timeNormal t := by
  unfold normCore at h
  split at h
  · rename_i h2 m2 hp
    injection h with h3
    subst h3
    obtain ⟨hhlt, hmlt⟩ := parseHM_lt hp
    exact ⟨h2, hhlt, m2, hmlt, rfl⟩
  · cases h

/-- `_normalize_time` maps a normalized time string to itself. -/
lemma normalizeTimeJ_of_timeNormal {t : String} (h : timeNormal t) :
    normalizeTimeJ (.str t) = .ok (some t) := by
  obtain ⟨hh, hhlt, mm, hmlt, rfl⟩ := h
  obtain ⟨hne, hstrip, hnorm⟩ := hmFormat_norm hh hhlt mm hmlt
  have ht : truthy (.str (hmFormat hh mm)) = true := by
    simp only [truthy, bne_iff_ne, ne_eq]
    exact hne
  unfold normalizeTimeJ
  rw [if_neg (by simp [ht])]
  show Except.ok (normCore (hmFormat hh mm)) = _
  rw [hnorm]

/-- Sanitizing the saved JSON of a normalized entry returns the entry. -/
lemma sanitizeItem_entryJ {e : ScheduleEntry} (he : entryNormal e) :
    sanitizeItem (entryJ e) = .ok (some e) := by
  obtain ⟨hst, hen, hlt, hlab, hlabne⟩ := he
  have h1 : sanitizeItem (entryJ e) =
      (match normalizeTimeJ (.str e.start) with
       | .error err => .error err
       | .ok startN =>
         match normalizeTimeJ (.str e.endT) with
         | .error err => .error err
         | .ok endN =>
           let label := pyOr (pyStrip (if truthy (.str e.label)
             then pyStr (.str e.label) else "")) "Break"
           match startN, endN with
           | some st, some en =>
             if st = en then .ok none
             else if !pyStrLt st en then .ok none
             else .ok (some ⟨st, en, label⟩)
           | _, _ => .ok none) := rfl
  rw [h1, normalizeTimeJ_of_timeNormal hst, normalizeTimeJ_of_timeNormal hen]
  have hlabel : pyOr (pyStrip (if truthy (.str e.label)
      then pyStr (.str e.label) else "")) "Break" = e.label := by
    have ht : truthy (.str e.label) = true := by
      simp only [truthy, bne_iff_ne, ne_eq]
      exact hlabne
    rw [if_pos ht]
    show pyOr (pyStrip e.label) "Break" = e.label
    rw [hlab]
    unfold pyOr
    rw [if_neg hlabne]
  dsimp only
  rw [hlabel]
  have hne : ¬(e.start = e.endT) := by
    intro hcon
    rw [hcon] at hlt
    unfold pyStrLt at hlt
    rw [listLt_irrefl] at hlt
    cases hlt
  rw [if_neg hne, hlt]
  rfl

/-- The sanitize loop maps a list of saved normalized entries to itself. -/
lemma scheduleLoop_entryJ : ∀ (entries acc : List ScheduleEntry),
    (∀ e ∈ entries, entryNormal e) →
    scheduleLoop (entries.map entryJ) acc = .ok (acc ++ entries) := by
  intro entries
  induction entries with
  | nil =>
    intro acc _
    simp [scheduleLoop]
  | cons e rest ih =>
    intro acc hall
    rw [List.map_cons, scheduleLoop,
      sanitizeItem_entryJ (hall e (List.mem_cons_self e rest))]
    dsimp only
    rw [ih (acc ++ [e]) (fun x hx => hall x (List.mem_cons_of_mem e hx))]
    simp

/-- Inserting an entry not smaller than anything present appends it. -/
lemma insertByStart_all_le {e : ScheduleEntry} :
    ∀ {l}, (∀ x ∈ l, pyStrLe x.start e.start = true) →
      insertByStart e l = l ++ [e] := by
  intro l
  induction l with
  | nil =>
    intro _
    rfl
  | cons x xs ih =>
    intro hall
    rw [insertByStart, if_pos (hall x (List.mem_cons_self x xs)),
      ih (fun y hy => hall y (List.mem_cons_of_mem x hy))]
    rfl

/-- The insertion-sort fold leaves a sorted list unchanged. -/
lemma sortFold_of_sorted : ∀ (l acc : List ScheduleEntry),
    (acc ++ l).Pairwise (fun a b => pyStrLe a.start b.start = true) →
    l.foldl (fun a e => insertByStart e a) acc = acc ++ l := by
  intro l
  induction l with
  | nil =>
    intro acc _
    simp
  | cons e rest ih =>
    intro acc hp
    rw [List.foldl_cons]
    have hacc : ∀ x ∈ acc, pyStrLe x.start e.start = true := by
      intro x hx
      exact (List.pairwise_append.1 hp).2.2 x hx e (List.mem_cons_self e rest)
    rw [insertByStart_all_le hacc]
    have hp2 : ((acc ++ [e]) ++ rest).Pairwise
        (fun a b => pyStrLe a.start b.start = true) := by
      have : (acc ++ [e]) ++ rest = acc ++ (e :: rest) := by simp
      rw [this]
      exact hp
    rw [ih (acc ++ [e]) hp2]
    simp

/-- `sortByStart` is the identity on sorted lists. -/
lemma sortByStart_of_sorted {l : List ScheduleEntry}
    (h : l.Pairwise (fun a b => pyStrLe a.start b.start = true)) :
    sortByStart l = l := by
  unfold sortByStart
  have h2 := sortFold_of_sorted l [] (by simpa using h)
  simpa using h2

/-- `ensure_schedule` reproduces a saved normalized, sorted schedule. -/
lemma ensureSchedule_saved {sch : List ScheduleEntry}
    (hall : ∀ e ∈ sch, entryNormal e)
    (hsort : sch.Pairwise (fun a b => pyStrLe a.start b.start = true)) :
    ensureSchedule (.arr (sch.map entryJ)) = .ok sch := by
  unfold ensureSchedule
  dsimp only
  rw [scheduleLoop_entryJ sch [] hall]
  dsimp only
  rw [List.nil_append, sortByStart_of_sorted hsort]

/-- A time field that survives `_normalize_time` is a normalized time. -/
lemma normalizeTimeJ_some_timeNormal {v : JVal} {t : String}
    (h : normalizeTimeJ v = .ok (some t)) : timeNormal t := by
  unfold normalizeTimeJ at h
  split_ifs at h with hv
  · split at h
    · rename_i s
      injection h with h2
      exact normCore_timeNormal h2
    · cases h
  · injection h with h2
    cases h2

/-- Every entry kept by the `ensure_schedule` loop body is normalized. -/
lemma sanitizeItem_normal {item : JVal} {e : ScheduleEntry}
    (h : sanitizeItem item = .ok (some e)) : entryNormal e := by
  cases item with
  | obj fs =>
    unfold sanitizeItem at h
    split at h
    · rename_i fs2 heq
      injection heq with heq2
      subst heq2
      split at h
      · cases h
      · rename_i startN hstart
        split at h
        · cases h
        · rename_i endN hend
          dsimp only at h
          split at h
          · rename_i st en
            split_ifs at h with h1 h2 h3
            · injection h with h4
              cases h4
            · injection h with h4
              cases h4
            · injection h with h4
              injection h4 with h5
              subst h5
              have hlt : pyStrLt st en = true := by
                simpa using h2
              have hlab := pyOr_strip_norm
                (pyStr ((List.lookup "label" fs).getD .null))
                "Break" (by decide) (by decide)
              exact ⟨normalizeTimeJ_some_timeNormal hstart,
                normalizeTimeJ_some_timeNormal hend, hlt, hlab.1, hlab.2⟩
            · injection h with h4
              injection h4 with h5
              subst h5
              have hlt : pyStrLt st en = true := by
                simpa using h2
              have hlab := pyOr_strip_norm "" "Break" (by decide) (by decide)
              exact ⟨normalizeTimeJ_some_timeNormal hstart,
                normalizeTimeJ_some_timeNormal hend, hlt, hlab.1, hlab.2⟩
          · injection h with h5
            cases h5
    · rename_i hcon
      exact absurd rfl (hcon fs)
  | null => simp [sanitizeItem] at h
  | bool b => simp [sanitizeItem] at h
  | int n => simp [sanitizeItem] at h
  | float q => simp [sanitizeItem] at h
  | str s => simp [sanitizeItem] at h
  | arr xs => simp [sanitizeItem] at h

/-- Every entry the `ensure_schedule` loop accumulates is normalized. -/
lemma scheduleLoop_normal : ∀ (xs : List JVal) (acc entries : List ScheduleEntry),
    (∀ e ∈ acc, entryNormal e) → scheduleLoop xs acc = .ok entries →
    ∀ e ∈ entries, entryNormal e := by
  intro xs
  induction xs with
  | nil =>
    intro acc entries hacc h
    rw [scheduleLoop] at h
    injection h with h2
    subst h2
    exact hacc
  | cons x rest ih =>
    intro acc entries hacc h
    rw [scheduleLoop] at h
    split at h
    · cases h
    · rename_i e2 hs
      refine ih (acc ++ [e2]) entries ?_ h
      intro y hy
      rcases List.mem_append.1 hy with hy | hy
      · exact hacc y hy
      · rw [List.mem_singleton] at hy
        subst hy
        exact sanitizeItem_normal hs
    · exact ih acc entries hacc h

/-- What `ensure_schedule` returns is normalized entry-wise and sorted. -/
lemma ensureSchedule_normal {v : JVal} {sch : List ScheduleEntry}
    (h : ensureSchedule v = .ok sch) :
    (∀ e ∈ sch, entryNormal e) ∧
      sch.Pairwise (fun a b => pyStrLe a.start b.start = true) := by
  unfold ensureSchedule at h
  split at h
  · rename_i items
    split at h
    · cases h
    · rename_i entries hloop
      injection h with h2
      subst h2
      refine ⟨?_, sortByStart_sorted entries⟩
      intro e he
      have hmem : e ∈ entries := ((sortByStart_perm entries).mem_iff).1 he
      exact scheduleLoop_normal items [] entries (by intro y hy; cases hy) hloop e hmem
  · injection h with h2
    subst h2
    exact ⟨(by intro e he; cases he), List.Pairwise.nil⟩

/-- Saving then reading back an optional window coordinate is the identity. -/
lemma pyIsInt_optIntJ : ∀ o : Option Int, pyIsInt (optIntJ o) = o := by
  intro o
  cases o <;> rfl

/-- `ensure_font_size` with the default fallback stays within `8 .. 96`. -/
lemma ensureFontSize_bounds (v : JVal) :
    8 ≤ ensureFontSize v DEFAULT_FONT_SIZE ∧
      ensureFontSize v DEFAULT_FONT_SIZE ≤ 96 := by
  unfold ensureFontSize
  split
  · decide
  · split
    · decide
    · exact ⟨le_max_left _ _, max_le (by norm_num) (min_le_left _ _)⟩

/-- `ensure_font_size` is the identity on sizes already in range. -/
lemma ensureFontSize_id {n : Int} (h1 : 8 ≤ n) (h2 : n ≤ 96) (d : Int) :
    ensureFontSize (.int n) d = n := by
  unfold ensureFontSize
  show max 8 (min 96 n) = n
  rw [min_eq_right h2, max_eq_right h1]

/-- The transparency clamp lands in `0.2 .. 1.0`. -/
lemma clampTransparency_bounds (x : PyFloat) :
    1/5 ≤ clampTransparency x ∧ clampTransparency x ≤ 1 := by
  cases x with
  | fin q =>
    simp only [clampTransparency]
    split_ifs <;> constructor <;> linarith
  | pinf => exact ⟨by norm_num [clampTransparency], by norm_num [clampTransparency]⟩
  | ninf => exact ⟨by norm_num [clampTransparency], by norm_num [clampTransparency]⟩
  | nan => exact ⟨by norm_num [clampTransparency], by norm_num [clampTransparency]⟩

/-- `ensure_transparency` with the default fallback stays within `0.2 .. 1.0`. -/
lemma ensureTransparency_bounds (v : JVal) :
    1/5 ≤ ensureTransparency v DEFAULT_TRANSPARENCY ∧
      ensureTransparency v DEFAULT_TRANSPARENCY ≤ 1 := by
  unfold ensureTransparency
  split
  · constructor <;> norm_num [DEFAULT_TRANSPARENCY]
  · split
    · constructor <;> norm_num [DEFAULT_TRANSPARENCY]
    · exact clampTransparency_bounds _

/-- `ensure_transparency` is the identity on values already in range. -/
lemma ensureTransparency_id {q : ℚ} (h1 : 1/5 ≤ q) (h2 : q ≤ 1) (d : ℚ) :
    ensureTransparency (.float q) d = q := by
  unfold ensureTransparency
  show clampTransparency (.fin q) = q
  simp only [clampTransparency]
  split_ifs <;> first | rfl | linarith

/-- `ensure_language` with the default fallback yields a supported code. -/
lemma ensureLanguage_mem {v : JVal} {lang : String}
    (h : ensureLanguage v DEFAULT_LANGUAGE = .ok lang) :
    lang = "en" ∨ lang = "zh" := by
  unfold ensureLanguage at h
  split_ifs at h with ht
  · split at h
    · rename_i s
      injection h with h2
      split_ifs at h2 with hmem
      · subst h2
        rw [SUPPORTED_LANGUAGES] at hmem
        simp only [List.mem_cons, List.not_mem_nil, or_false] at hmem
        exact hmem
      · exact Or.inr h2.symm
    · cases h
  · injection h with h2
    exact Or.inr h2.symm

/-- `ensure_language` is the identity on supported codes. -/
lemma ensureLanguage_id {lang : String} (h : lang = "en" ∨ lang = "zh")
    (d : String) : ensureLanguage (.str lang) d = .ok lang := by
  rcases h with h | h <;> rw [h] <;> rfl

/-- A stripped non-empty string field survives the load normalization. -/
lemma strField_roundtrip (s d e : String) (h1 : pyStrip s = s) (h2 : s ≠ "") :
    pyOr (pyStrip (if truthy (.str s) then pyStr (.str s) else e)) d = s := by
  have ht : truthy (.str s) = true := by
    simp only [truthy, bne_iff_ne, ne_eq]
    exact h2
  rw [if_pos ht]
  show pyOr (pyStrip s) d = s
  rw [h1]
  unfold pyOr
  rw [if_neg h2]

/-- The all-defaults config is normalized. -/
lemma defaultTaskConfig_normalized : Normalized defaultTaskConfig := by
  refine ⟨by decide, by decide, by decide, by decide, by decide, by decide,
    ⟨by decide, by decide, by decide⟩, ⟨by decide, by decide, by decide⟩,
    ?_, ?_, Or.inr rfl, (by intro e he; cases he), List.Pairwise.nil⟩
  · show (1/5 : ℚ) ≤ 17/20
    norm_num
  · show (17/20 : ℚ) ≤ 1
    norm_num

/-- Everything `TaskConfig.load` returns is normalized. -/
lemma load_normalized : ∀ {inp : ConfigFile} {c : TaskConfig},
    TaskConfig.load inp = .ok c → Normalized c := by
  intro inp c h
  cases inp with
  | missing =>
    injection h with h2
    subst h2
    exact defaultTaskConfig_normalized
  | ioError =>
    injection h with h2
    subst h2
    exact defaultTaskConfig_normalized
  | badJson =>
    injection h with h2
    subst h2
    exact defaultTaskConfig_normalized
  | json v =>
    cases v with
    | obj fs =>
      unfold TaskConfig.load at h
      dsimp only at h
      split at h
      · cases h
      · rename_i language hlang
        split at h
        · cases h
        · rename_i schedule hsched
          injection h with h2
          subst h2
          obtain ⟨hs1, hs2⟩ := ensureSchedule_normal hsched
          exact ⟨(pyOr_strip_norm _ DEFAULT_MESSAGE (by decide) (by decide)).1,
            (pyOr_strip_norm _ DEFAULT_MESSAGE (by decide) (by decide)).2,
            (pyOr_strip_norm _ DEFAULT_FONT_FAMILY (by decide) (by decide)).1,
            (pyOr_strip_norm _ DEFAULT_FONT_FAMILY (by decide) (by decide)).2,
            (ensureFontSize_bounds _).1, (ensureFontSize_bounds _).2,
            ensureColor_normal _ _ ⟨by decide, by decide, by decide⟩,
            ensureColor_normal _ _ ⟨by decide, by decide, by decide⟩,
            (ensureTransparency_bounds _).1, (ensureTransparency_bounds _).2,
            ensureLanguage_mem hlang, hs1, hs2⟩
    | null =>
      have h2 : (Except.error () : Except Unit TaskConfig) = .ok c := h
      cases h2
    | bool b =>
      have h2 : (Except.error () : Except Unit TaskConfig) = .ok c := h
      cases h2
    | int n =>
      have h2 : (Except.error () : Except Unit TaskConfig) = .ok c := h
      cases h2
    | float q =>
      have h2 : (Except.error () : Except Unit TaskConfig) = .ok c := h
      cases h2
    | str s =>
      have h2 : (Except.error () : Except Unit TaskConfig) = .ok c := h
      cases h2
    | arr xs =>
      have h2 : (Except.error () : Except Unit TaskConfig) = .ok c := h
      cases h2

/-- Reloading the saved JSON of a normalized config reproduces it field by
field. -/
lemma load_save {c : TaskConfig} (hn : Normalized c) :
    TaskConfig.load (.json (TaskConfig.save c)) = .ok c := by
  obtain ⟨hm1, hm2, hf1, hf2, hfs1, hfs2, htc, hoc, ht1, ht2, hlang, hsch, hsort⟩ := hn
  have hred : TaskConfig.load (.json (TaskConfig.save c)) =
      (match ensureLanguage (.str c.language) DEFAULT_LANGUAGE with
       | .error err => .error err
       | .ok language =>
         match ensureSchedule (.arr (c.schedule.map entryJ)) with
         | .error err => .error err
         | .ok schedule =>
           .ok ⟨pyOr (pyStrip (if truthy (.str c.message)
                  then pyStr (.str c.message) else "")) DEFAULT_MESSAGE,
                pyIsInt (optIntJ c.x), pyIsInt (optIntJ c.y),
                pyOr (pyStrip (if truthy (.str c.font_family)
                  then pyStr (.str c.font_family) else DEFAULT_FONT_FAMILY))
                  DEFAULT_FONT_FAMILY,
                ensureFontSize (.int c.font_size) DEFAULT_FONT_SIZE,
                ensureColor (.str c.text_color) DEFAULT_TEXT_COLOR,
                ensureColor (.str c.outline_color) DEFAULT_OUTLINE_COLOR,
                ensureTransparency (.float c.transparency) DEFAULT_TRANSPARENCY,
                language, schedule⟩) := rfl
  rw [hred, ensureLanguage_id hlang DEFAULT_LANGUAGE]
  dsimp only
  rw [ensureSchedule_saved hsch hsort]
  dsimp only
  rw [strField_roundtrip c.message DEFAULT_MESSAGE "" hm1 hm2,
    strField_roundtrip c.font_family DEFAULT_FONT_FAMILY DEFAULT_FONT_FAMILY hf1 hf2,
    pyIsInt_optIntJ, pyIsInt_optIntJ,
    ensureFontSize_id hfs1 hfs2, ensureColor_of_normal htc, ensureColor_of_normal hoc,
    ensureTransparency_id ht1 ht2]

/-- C8: every config produced by `TaskConfig.load` (hence already normalized)
survives a save/load round trip unchanged — load after save is the identity on
load's image, i.e. normalization happens at most once. -/
theorem claim_C8_load_save_roundtrip (inp : ConfigFile) (c : TaskConfig)
    (h : TaskConfig.load inp = .ok c) :
    TaskConfig.load (.json (TaskConfig.save c)) = .ok c :=
  load_save (load_normalized h)

/-- Witness for C8: loading a missing file yields the default config, and the
round trip reproduces it exactly. -/
theorem claim_C8_witness :
    TaskConfig.load .missing = .ok defaultTaskConfig ∧
      TaskConfig.load (.json (TaskConfig.save defaultTaskConfig)) =
        .ok defaultTaskConfig :=
  ⟨rfl, claim_C8_load_save_roundtrip .missing defaultTaskConfig rfl⟩

namespace Scratch
example :
    ensureSchedule (.arr [.obj [("start", .str "9:00"), ("end", .str "10:00")]]) =
      .ok [⟨"09:00", "10:00", "Break"⟩] := rfl
example :
    ensureSchedule (.arr [.obj [("start", .int 1), ("end", .str "10:00")]]) = .error () := rfl
example :
    ensureSchedule (.arr
      [.obj [("start", .str "12:00"), ("end", .str "13:00"), ("label", .str " lunch ")],
       .obj [("start", .str "09:00"), ("end", .str "09:10")],
       .str "junk",
       .obj [("start", .str "10:00"), ("end", .str "10:00")],
       .obj [("start", .str "11:00"), ("end", .str "10:30")]]) =
      .ok [⟨"09:00", "09:10", "Break"⟩, ⟨"12:00", "13:00", "lunch"⟩] := rfl
example : TaskConfig.load .missing = .ok defaultTaskConfig := rfl
example : loadHistory (.json (.arr [])) = .error () := rfl
example :
    loadHistory (.json (.obj [("2024-01-01", .arr [.obj [("timestamp", .str "t"), ("event", .str "start")]]),
                              ("2024-01-02", .arr [.int 3]),
                              ("x", .str "nope")])) =
      .ok [("2024-01-01", [⟨"t", "start", .str ""⟩])] := rfl
example : ensureColor (.str " #AB12ff ") "#ffffff" = "#ab12ff" := rfl
example : ensureFontSize (.str "120") 28 = 96 := rfl
end Scratch


end Attention
